import Mathlib

/-!
A shallow embedding of the Insight Bridge cleaning/validation pipeline
(`cleaning/*.py` and `ingestion/type_inference.py`).

Dataframe cells are modelled by a dynamic value type `Val`; numbers are
rationals (the source works with IEEE floats; every arithmetic fact proved
here is exact rational arithmetic), missing values (`NaN` / `pd.NA` / `NaT`)
are `Val.na`, and a dataframe is a stable integer row index together with
named, index-aligned columns.  Columns referenced by a schema are assumed to
exist in the frame (pandas raises `KeyError` otherwise; the embedding reads
them with a `[]` default and every theorem assumes the column is present).
-/

namespace InsightBridge

/-- A pandas cell: missing, a number, a string, a boolean, or a timestamp. -/
inductive Val where
  | na
  | num (q : ℚ)
  | str (s : String)
  | bool (b : Bool)
  | date (d : ℤ)
deriving DecidableEq, Repr

def Val.toNum? : Val → Option ℚ
  | .num q => some q
  | _ => none

def Val.isNa : Val → Bool
  | .na => true
  | _ => false

/-- Column-oriented dataframe: a row index (stable integer labels that
survive filtering) plus named columns, each a cell list aligned with the
index. -/
structure DataFrame where
  index : List ℕ
  cols : List (String × List Val)
deriving DecidableEq, Repr

namespace DataFrame

def colNames (df : DataFrame) : List String := df.cols.map (·.1)

def getCol (df : DataFrame) (c : String) : Option (List Val) :=
  (df.cols.find? (fun p => p.1 == c)).map (·.2)

/-- Column access with a `[]` default for a missing column. -/
def getColD (df : DataFrame) (c : String) : List Val :=
  (df.getCol c).getD []

def hasCol (df : DataFrame) (c : String) : Bool :=
  df.cols.any (fun p => p.1 == c)

/-- `df[c] = vs`: overwrite the column if present, else append it. -/
def setCol (df : DataFrame) (c : String) (vs : List Val) : DataFrame :=
  if df.hasCol c then
    ⟨df.index, df.cols.map (fun p => if p.1 == c then (c, vs) else p)⟩
  else
    ⟨df.index, df.cols ++ [(c, vs)]⟩

def nRows (df : DataFrame) : ℕ := df.index.length

def nCols (df : DataFrame) : ℕ := df.cols.length

def shape (df : DataFrame) : ℕ × ℕ := (df.nRows, df.nCols)

/-- Well-formedness: every column is aligned with the index and column
names are unique (guaranteed by the loaders, per the external contract). -/
def WF (df : DataFrame) : Prop :=
  (∀ p ∈ df.cols, p.2.length = df.index.length) ∧ df.colNames.Nodup

end DataFrame

/-- Keep the positions of a boolean mask that are `true` (row filtering). -/
def applyMask {α : Type} : List Bool → List α → List α
  | true :: ms, a :: as => a :: applyMask ms as
  | false :: ms, _ :: as => applyMask ms as
  | _, _ => []

/-- Keep-mask of non-missing cells. -/
def keepMask (cells : List Val) : List Bool := cells.map (fun v => !v.isNa)

/-- `df.dropna(subset=[c])`: remove the rows in which column `c` is
missing, filtering the index and every column by the same mask. -/
def DataFrame.dropnaSubset (df : DataFrame) (c : String) : DataFrame :=
  let mask := keepMask (df.getColD c)
  ⟨applyMask mask df.index, df.cols.map (fun p => (p.1, applyMask mask p.2))⟩

/-- The non-missing numeric values of a column (`series.dropna()` on a
numeric column). -/
def nonNaNums (cells : List Val) : List ℚ := cells.filterMap Val.toNum?

/-- Ascending sort of the values (order statistics behind `quantile`). -/
def sortQ (l : List ℚ) : List ℚ := l.insertionSort (· ≤ ·)

/-- Linear interpolation at fractional position `h` into the sorted list
`l`: the value `l[⌊h⌋] + (h − ⌊h⌋) · (l[⌊h⌋+1] − l[⌊h⌋])`, the
interpolation rule of `Series.quantile`. -/
def interp (l : List ℚ) (h : ℚ) : ℚ :=
  l.getD (⌊h⌋).toNat 0 +
    (h - (((⌊h⌋).toNat : ℕ) : ℚ)) *
      (l.getD ((⌊h⌋).toNat + 1) (l.getD (⌊h⌋).toNat 0) - l.getD (⌊h⌋).toNat 0)

/-- `Series.quantile(p)` with the default linear interpolation: sort the
values and interpolate at position `p · (n − 1)`. -/
def quantileQ (l : List ℚ) (p : ℚ) : ℚ :=
  interp (sortQ l) (p * ((l.length : ℚ) - 1))

/-! ### Frame lemmas for column update -/

theorem find?_map_replace (c : String) (vs : List Val) :
    ∀ cols : List (String × List Val),
      cols.any (fun p => p.1 == c) = true →
      (cols.map (fun p => if p.1 == c then (c, vs) else p)).find?
          (fun p => p.1 == c) = some (c, vs)
  | [], h => by simp at h
  | p :: rest, h => by
    by_cases hp : p.1 = c
    · simp [List.find?_cons, hp]
    · have hrest : rest.any (fun q => q.1 == c) = true := by
        simpa [List.any_cons, hp] using h
      simpa [List.find?_cons, hp] using find?_map_replace c vs rest hrest

theorem find?_map_replace_other (c c' : String) (vs : List Val) (hcc : c' ≠ c) :
    ∀ cols : List (String × List Val),
      (cols.map (fun p => if p.1 == c then (c, vs) else p)).find?
          (fun p => p.1 == c') = cols.find? (fun p => p.1 == c')
  | [] => by simp
  | p :: rest => by
    by_cases hp : p.1 = c
    · have h1 : ¬ c = c' := fun h => hcc h.symm
      simpa [List.find?_cons, hp, h1] using find?_map_replace_other c c' vs hcc rest
    · by_cases hq : p.1 = c'
      · have hc : ¬ c' = c := fun hh => hp (by rw [hq, hh])
        simp [List.find?_cons, hp, hq, hc]
      · simpa [List.find?_cons, hp, hq] using find?_map_replace_other c c' vs hcc rest

namespace DataFrame

theorem setCol_index (df : DataFrame) (c : String) (vs : List Val) :
    (df.setCol c vs).index = df.index := by
  unfold setCol
  split <;> rfl

theorem getCol_setCol_self (df : DataFrame) (c : String) (vs : List Val) :
    (df.setCol c vs).getCol c = some vs := by
  unfold setCol
  by_cases h : df.hasCol c = true
  · simp only [h, if_true, getCol]
    rw [find?_map_replace c vs df.cols h]
    rfl
  · have hnone : df.cols.find? (fun p => p.1 == c) = none := by
      rw [List.find?_eq_none]
      intro x hx hpx
      have hc : df.hasCol c = true := List.any_eq_true.mpr ⟨x, hx, hpx⟩
      exact h hc
    simp only [h, if_false, getCol, Bool.false_eq_true]
    rw [List.find?_append, hnone]
    simp [List.find?_cons]

theorem getCol_setCol_other (df : DataFrame) (c c' : String) (vs : List Val)
    (hcc : c' ≠ c) : (df.setCol c vs).getCol c' = df.getCol c' := by
  unfold setCol
  by_cases h : df.hasCol c = true
  · simp only [h, if_true, getCol]
    rw [find?_map_replace_other c c' vs hcc df.cols]
  · have h2 : ([(c, vs)].find? (fun p => p.1 == c')) = none := by
      have hc : ¬ c = c' := fun hh => hcc hh.symm
      simp [List.find?_cons, hc]
    simp only [h, if_false, getCol, Bool.false_eq_true]
    rw [List.find?_append, h2]
    cases df.cols.find? (fun p => p.1 == c') <;> rfl

end DataFrame

theorem sortQ_sorted (l : List ℚ) : (sortQ l).Sorted (· ≤ ·) :=
  List.sorted_insertionSort _ l

theorem sortQ_length (l : List ℚ) : (sortQ l).length = l.length :=
  (List.perm_insertionSort _ l).length_eq

theorem getD_mono_of_sorted {l : List ℚ} (hs : l.Sorted (· ≤ ·))
    {i j : ℕ} (hij : i ≤ j) (hj : j < l.length) :
    l.getD i 0 ≤ l.getD j 0 := by
  have hi : i < l.length := lt_of_le_of_lt hij hj
  rw [List.getD_eq_getElem l 0 hi, List.getD_eq_getElem l 0 hj]
  have := hs.rel_get_of_le (a := ⟨i, hi⟩) (b := ⟨j, hj⟩) hij
  simpa [List.get_eq_getElem] using this

theorem getD_le_next_of_sorted {l : List ℚ} (hs : l.Sorted (· ≤ ·))
    {i : ℕ} (hi : i < l.length) :
    l.getD i 0 ≤ l.getD (i + 1) (l.getD i 0) := by
  by_cases h : i + 1 < l.length
  · rw [List.getD_eq_getElem l _ h]
    have := getD_mono_of_sorted hs (Nat.le_succ i) h
    rwa [List.getD_eq_getElem l 0 h] at this
  · rw [List.getD_eq_default l _ (Nat.le_of_not_lt h)]

/-- Linear interpolation into a sorted list is monotone in the position. -/
theorem interp_mono {l : List ℚ} (hs : l.Sorted (· ≤ ·))
    {h h' : ℚ} (h0 : 0 ≤ h) (hhh : h ≤ h') (hub : h' ≤ (l.length : ℚ) - 1) :
    interp l h ≤ interp l h' := by
  have h0' : (0:ℚ) ≤ h' := le_trans h0 hhh
  have hfl : (0:ℤ) ≤ ⌊h⌋ := Int.floor_nonneg.mpr h0
  have hfl' : (0:ℤ) ≤ ⌊h'⌋ := Int.floor_nonneg.mpr h0'
  have hcast : (((⌊h⌋).toNat : ℕ) : ℚ) = ((⌊h⌋ : ℤ) : ℚ) := by
    exact_mod_cast congrArg (fun z : ℤ => (z : ℚ)) (Int.toNat_of_nonneg hfl)
  have hcast' : (((⌊h'⌋).toNat : ℕ) : ℚ) = ((⌊h'⌋ : ℤ) : ℚ) := by
    exact_mod_cast congrArg (fun z : ℤ => (z : ℚ)) (Int.toNat_of_nonneg hfl')
  have hle_i : (((⌊h⌋).toNat : ℕ) : ℚ) ≤ h := by rw [hcast]; exact Int.floor_le h
  have hlt_i : h < (((⌊h⌋).toNat : ℕ) : ℚ) + 1 := by
    rw [hcast]; exact Int.lt_floor_add_one h
  have hle_i' : (((⌊h'⌋).toNat : ℕ) : ℚ) ≤ h' := by rw [hcast']; exact Int.floor_le h'
  have hii' : (⌊h⌋).toNat ≤ (⌊h'⌋).toNat := Int.toNat_le_toNat (Int.floor_mono hhh)
  -- the length is at least one and the upper position stays inside the list
  have hn1 : 1 ≤ l.length := by
    by_contra hc
    have h00 : l.length = 0 := by omega
    rw [h00] at hub
    norm_num at hub
    linarith
  have hfloor_ub : ⌊h'⌋ ≤ (l.length : ℤ) - 1 := by
    have hcast2 : ((l.length : ℚ) - 1) = (((l.length : ℤ) - 1 : ℤ) : ℚ) := by
      push_cast; ring
    have := Int.floor_mono hub
    rwa [hcast2, Int.floor_intCast] at this
  have hi'_lt : (⌊h'⌋).toNat < l.length := by omega
  have hi_lt : (⌊h⌋).toNat < l.length := lt_of_le_of_lt hii' hi'_lt
  rcases eq_or_lt_of_le hii' with heq | hlt
  · -- same interpolation cell: slope is nonneg, position grows
    have hyx : 0 ≤ l.getD ((⌊h⌋).toNat + 1) (l.getD (⌊h⌋).toNat 0) - l.getD (⌊h⌋).toNat 0 :=
      sub_nonneg.mpr (getD_le_next_of_sorted hs hi_lt)
    simp only [interp, ← heq]
    nlinarith [mul_le_mul_of_nonneg_right (sub_le_sub_right hhh (((⌊h⌋).toNat : ℕ) : ℚ)) hyx]
  · -- different cells: pass through the cell boundaries
    have hi1_lt : (⌊h⌋).toNat + 1 < l.length := lt_of_le_of_lt hlt hi'_lt
    have step1 : interp l h ≤ l.getD ((⌊h⌋).toNat + 1) 0 := by
      have hy : l.getD ((⌊h⌋).toNat + 1) (l.getD (⌊h⌋).toNat 0) =
          l.getD ((⌊h⌋).toNat + 1) 0 := by
        rw [List.getD_eq_getElem l _ hi1_lt, List.getD_eq_getElem l 0 hi1_lt]
      have hyx : l.getD (⌊h⌋).toNat 0 ≤ l.getD ((⌊h⌋).toNat + 1) 0 :=
        getD_mono_of_sorted hs (Nat.le_succ _) hi1_lt
      simp only [interp, hy]
      nlinarith [sub_nonneg.mpr hyx, sub_nonneg.mpr hle_i]
    have step2 : l.getD ((⌊h⌋).toNat + 1) 0 ≤ l.getD ((⌊h'⌋).toNat) 0 :=
      getD_mono_of_sorted hs hlt hi'_lt
    have step3 : l.getD ((⌊h'⌋).toNat) 0 ≤ interp l h' := by
      have hyx : 0 ≤ l.getD ((⌊h'⌋).toNat + 1) (l.getD (⌊h'⌋).toNat 0) -
          l.getD (⌊h'⌋).toNat 0 :=
        sub_nonneg.mpr (getD_le_next_of_sorted hs hi'_lt)
      simp only [interp]
      nlinarith [sub_nonneg.mpr hle_i']
    linarith

/-- `quantile` is monotone in the probability, on a nonempty value list. -/
theorem quantileQ_monotone (l : List ℚ) (hl : l ≠ []) {p p' : ℚ}
    (hp0 : 0 ≤ p) (hpp' : p ≤ p') (hp1 : p' ≤ 1) :
    quantileQ l p ≤ quantileQ l p' := by
  have hn : 1 ≤ l.length := List.length_pos.mpr hl
  have hnn : (0:ℚ) ≤ (l.length : ℚ) - 1 := by
    have : (1:ℚ) ≤ (l.length : ℚ) := by exact_mod_cast hn
    linarith
  apply interp_mono (sortQ_sorted l)
  · exact mul_nonneg hp0 hnn
  · exact mul_le_mul_of_nonneg_right hpp' hnn
  · rw [sortQ_length]
    calc p' * ((l.length : ℚ) - 1) ≤ 1 * ((l.length : ℚ) - 1) :=
          mul_le_mul_of_nonneg_right hp1 hnn
      _ = (l.length : ℚ) - 1 := one_mul _

/-! ### NumericCleaner (`cleaning/numeric_cleaning.py`) -/

structure NumericCleaningConfig where
  enable_outlier_capping : Bool := true
  iqr_multiplier : ℚ := 3/2
  clip_extremes : Bool := false
deriving Repr, DecidableEq

/-- `Series.clip(lower, upper)` on one cell; missing values pass through. -/
def clipVal (lower upper : ℚ) : Val → Val
  | .num q => .num (min (max q lower) upper)
  | v => v

/-- The columns mapped to `"numeric"` by a logical-type mapping, in
mapping order (`[c for c, t in dtypes.items() if t == "numeric"]`). -/
def numericCols (dtypes : List (String × String)) : List String :=
  (dtypes.filter (fun p => p.2 == "numeric")).map (·.1)

structure NumericCleaner where
  config : NumericCleaningConfig := {}

/-- One iteration of the capping loop of `NumericCleaner.clean`: compute
Q1/Q3/IQR bounds of the column's non-missing values and clip if
`clip_extremes` is set. -/
def NumericCleaner.cleanCol (nc : NumericCleaner) (df : DataFrame)
    (col : String) : DataFrame :=
  let series := nonNaNums (df.getColD col)
  if series.isEmpty then df
  else
    let q1 := quantileQ series (1/4)
    let q3 := quantileQ series (3/4)
    let iqr := q3 - q1
    let lower := q1 - nc.config.iqr_multiplier * iqr
    let upper := q3 + nc.config.iqr_multiplier * iqr
    if nc.config.clip_extremes then
      df.setCol col ((df.getColD col).map (clipVal lower upper))
    else df

/-- `NumericCleaner.clean`: run the capping loop over the numeric columns
when `enable_outlier_capping` is set. -/
def NumericCleaner.clean (nc : NumericCleaner) (df : DataFrame)
    (dtypes : List (String × String)) : DataFrame :=
  if nc.config.enable_outlier_capping then
    (numericCols dtypes).foldl nc.cleanCol df
  else df

/-- The effect of one capping iteration on its own column, as a pure
cell-list transformation. -/
def cappedCellsWith (k : ℚ) (cells : List Val) : List Val :=
  let s := nonNaNums cells
  if s.isEmpty then cells
  else
    let q1 := quantileQ s (1/4)
    let q3 := quantileQ s (3/4)
    cells.map (clipVal (q1 - k * (q3 - q1)) (q3 + k * (q3 - q1)))

theorem cleanCol_getCol_other (nc : NumericCleaner) (df : DataFrame)
    (col c : String) (hc : c ≠ col) :
    (nc.cleanCol df col).getCol c = df.getCol c := by
  unfold NumericCleaner.cleanCol
  by_cases h1 : (nonNaNums (df.getColD col)).isEmpty
  · simp [h1]
  · by_cases h2 : nc.config.clip_extremes
    · simp [h1, h2, DataFrame.getCol_setCol_other df col c _ hc]
    · simp [h1, h2]

theorem foldl_cleanCol_not_mem (nc : NumericCleaner) :
    ∀ (cols : List String) (df : DataFrame) (col : String),
      col ∉ cols →
      (cols.foldl nc.cleanCol df).getCol col = df.getCol col
  | [], _, _, _ => rfl
  | c :: rest, df, col, h => by
    have h1 : col ≠ c := fun hh => h (hh ▸ List.mem_cons_self c rest)
    have h2 : col ∉ rest := fun hh => h (List.mem_cons_of_mem c hh)
    rw [List.foldl_cons, foldl_cleanCol_not_mem nc rest _ col h2,
      cleanCol_getCol_other nc df c col h1]

theorem cleanCol_getCol_self (nc : NumericCleaner) (df : DataFrame)
    (col : String) (hcl : nc.config.clip_extremes = true) :
    (nc.cleanCol df col).getCol col =
      (df.getCol col).map (cappedCellsWith nc.config.iqr_multiplier) := by
  unfold NumericCleaner.cleanCol cappedCellsWith
  cases hg : df.getCol col with
  | none =>
    have hd : df.getColD col = [] := by simp [DataFrame.getColD, hg]
    simp [hd, nonNaNums, hg]
  | some cells =>
    have hd : df.getColD col = cells := by simp [DataFrame.getColD, hg]
    by_cases h1 : (nonNaNums cells).isEmpty
    · have h1' : nonNaNums cells = [] := by simpa [List.isEmpty_iff] using h1
      simp [hd, h1, h1', hg]
    · have h1' : ¬ nonNaNums cells = [] := by simpa [List.isEmpty_iff] using h1
      simp [hd, h1, h1', hcl, hg, DataFrame.getCol_setCol_self]

/-- With `clip_extremes` set, the capping fold rewrites each numeric
column independently by `cappedCellsWith`. -/
theorem foldl_cleanCol_char (nc : NumericCleaner)
    (hcl : nc.config.clip_extremes = true) :
    ∀ (cols : List String) (df : DataFrame) (col : String),
      cols.Nodup → col ∈ cols →
      (cols.foldl nc.cleanCol df).getCol col =
        (df.getCol col).map (cappedCellsWith nc.config.iqr_multiplier)
  | [], _, _, _, hmem => absurd hmem (List.not_mem_nil _)
  | c :: rest, df, col, hnd, hmem => by
    rw [List.foldl_cons]
    rcases List.mem_cons.mp hmem with rfl | hmem'
    · have hnotin : col ∉ rest := (List.nodup_cons.mp hnd).1
      rw [foldl_cleanCol_not_mem nc rest _ col hnotin,
        cleanCol_getCol_self nc df col hcl]
    · have hcol_ne : col ≠ c := by
        intro hh
        exact (List.nodup_cons.mp hnd).1 (hh ▸ hmem')
      rw [foldl_cleanCol_char nc hcl rest _ col (List.nodup_cons.mp hnd).2 hmem',
        cleanCol_getCol_other nc df c col hcol_ne]

/-- Any numeric value of a capped cell list lies inside the IQR band of
the original values. -/
theorem mem_cappedCellsWith_bounds {k : ℚ} (hk : 0 < k) {cells : List Val}
    (hne : nonNaNums cells ≠ []) {q : ℚ}
    (hq : Val.num q ∈ cappedCellsWith k cells) :
    quantileQ (nonNaNums cells) (1/4)
        - k * (quantileQ (nonNaNums cells) (3/4)
                - quantileQ (nonNaNums cells) (1/4)) ≤ q ∧
      q ≤ quantileQ (nonNaNums cells) (3/4)
        + k * (quantileQ (nonNaNums cells) (3/4)
                - quantileQ (nonNaNums cells) (1/4)) := by
  have hq13 : quantileQ (nonNaNums cells) (1/4) ≤ quantileQ (nonNaNums cells) (3/4) :=
    quantileQ_monotone _ hne (by norm_num) (by norm_num) (by norm_num)
  set q1 := quantileQ (nonNaNums cells) (1/4) with hq1
  set q3 := quantileQ (nonNaNums cells) (3/4) with hq3
  have hlohi : q1 - k * (q3 - q1) ≤ q3 + k * (q3 - q1) := by nlinarith
  have hemp : (nonNaNums cells).isEmpty = false := by
    cases hcc : nonNaNums cells with
    | nil => exact absurd hcc hne
    | cons a l => simp [hcc, List.isEmpty]
  unfold cappedCellsWith at hq
  simp only [hemp, Bool.false_eq_true, if_false, ← hq1, ← hq3] at hq
  rcases List.mem_map.mp hq with ⟨v, _, hv⟩
  cases v with
  | num r =>
    simp only [clipVal] at hv
    have hqe : q = min (max r (q1 - k * (q3 - q1))) (q3 + k * (q3 - q1)) := by
      cases hv; rfl
    constructor
    · rw [hqe]
      exact le_min (le_max_right r _) hlohi
    · rw [hqe]; exact min_le_right _ _
  | na => simp [clipVal] at hv
  | str s => simp [clipVal] at hv
  | bool b => simp [clipVal] at hv
  | date d => simp [clipVal] at hv

/-- A frame whose single numeric column `x` is `[0, 0, 0, 0, 100]`:
Q1 = Q3 = 0, so the IQR band is `[0, 0]` for every multiplier `k`. -/
def c1Df : DataFrame :=
  ⟨[0, 1, 2, 3, 4], [("x", [.num 0, .num 0, .num 0, .num 0, .num 100])]⟩

def c1Dtypes : List (String × String) := [("x", "numeric")]

/-- **C1** counterexample: with the default configuration outlier capping
is enabled (`enable_outlier_capping = true`) and the multiplier is
positive, yet `clean()` leaves the value `100` in place even though it
lies outside `[Q1 − k·IQR, Q3 + k·IQR] = [0, 0]`: clipping additionally
requires the separate `clip_extremes` flag, which defaults to `False`. -/
theorem C1_counterexample :
    ({} : NumericCleaningConfig).enable_outlier_capping = true ∧
    0 < ({} : NumericCleaningConfig).iqr_multiplier ∧
    quantileQ (nonNaNums (c1Df.getColD "x")) (1/4) = 0 ∧
    quantileQ (nonNaNums (c1Df.getColD "x")) (3/4) = 0 ∧
    Val.num 100 ∈ (NumericCleaner.clean ⟨{}⟩ c1Df c1Dtypes).getColD "x" := by
  refine ⟨rfl, by norm_num, ?_, ?_, ?_⟩
  · norm_num [c1Df, DataFrame.getColD, DataFrame.getCol, List.find?, quantileQ, sortQ,
      interp, nonNaNums, Val.toNum?, List.filterMap_cons, List.filterMap_nil,
      List.insertionSort, List.orderedInsert]
    try simp
    try norm_num
  · norm_num [c1Df, DataFrame.getColD, DataFrame.getCol, List.find?, quantileQ, sortQ,
      interp, nonNaNums, Val.toNum?, List.filterMap_cons, List.filterMap_nil,
      List.insertionSort, List.orderedInsert]
    try simp
    try norm_num
  · norm_num [NumericCleaner.clean, numericCols, c1Dtypes, c1Df, NumericCleaner.cleanCol,
      nonNaNums, Val.toNum?, List.filterMap_cons, List.filterMap_nil, DataFrame.getColD, DataFrame.getCol, List.find?, List.filter]

/-- **C1** (amended): when outlier capping is enabled *and* the
`clip_extremes` flag is set, after `NumericCleaner.clean()` no non-missing
value of a numeric column lies outside `[Q1 − k·IQR, Q3 + k·IQR]`, where
Q1, Q3 are the quartiles of the column's non-missing values before
cleaning and `k > 0` is the configured multiplier. -/
theorem C1_clean_capped_in_bounds (nc : NumericCleaner)
    (hen : nc.config.enable_outlier_capping = true)
    (hcl : nc.config.clip_extremes = true)
    (hk : 0 < nc.config.iqr_multiplier)
    (df : DataFrame) (dtypes : List (String × String))
    (hnd : (numericCols dtypes).Nodup)
    (col : String) (hmem : col ∈ numericCols dtypes)
    (hne : nonNaNums (df.getColD col) ≠ [])
    (q : ℚ) (hq : Val.num q ∈ (nc.clean df dtypes).getColD col) :
    quantileQ (nonNaNums (df.getColD col)) (1/4)
        - nc.config.iqr_multiplier *
          (quantileQ (nonNaNums (df.getColD col)) (3/4)
            - quantileQ (nonNaNums (df.getColD col)) (1/4)) ≤ q ∧
      q ≤ quantileQ (nonNaNums (df.getColD col)) (3/4)
        + nc.config.iqr_multiplier *
          (quantileQ (nonNaNums (df.getColD col)) (3/4)
            - quantileQ (nonNaNums (df.getColD col)) (1/4)) := by
  unfold NumericCleaner.clean at hq
  rw [if_pos hen] at hq
  have hchar := foldl_cleanCol_char nc hcl (numericCols dtypes) df col hnd hmem
  cases hg : df.getCol col with
  | none =>
    have hd : df.getColD col = [] := by simp [DataFrame.getColD, hg]
    rw [hd] at hne
    simp [nonNaNums] at hne
  | some cells =>
    have hd : df.getColD col = cells := by simp [DataFrame.getColD, hg]
    rw [hg] at hchar
    have hq' : Val.num q ∈ cappedCellsWith nc.config.iqr_multiplier cells := by
      have : ((numericCols dtypes).foldl nc.cleanCol df).getColD col =
          cappedCellsWith nc.config.iqr_multiplier cells := by
        simp [DataFrame.getColD, hchar]
      rwa [this] at hq
    rw [hd] at hne ⊢
    exact mem_cappedCellsWith_bounds hk hne hq'

def c1wDf : DataFrame :=
  ⟨[0, 1, 2], [("x", [.num 0, .num 10, .num 100])]⟩

/-- **C1** witness: the amended theorem applied to a concrete frame and a
concrete capping-enabled, clipping-enabled configuration. -/
theorem C1_clean_capped_in_bounds_witness :
    (0 : ℚ) < 3/2 ∧
    (quantileQ (nonNaNums (c1wDf.getColD "x")) (1/4)
        - (3/2) * (quantileQ (nonNaNums (c1wDf.getColD "x")) (3/4)
            - quantileQ (nonNaNums (c1wDf.getColD "x")) (1/4)) ≤ 100 ∧
      (100:ℚ) ≤ quantileQ (nonNaNums (c1wDf.getColD "x")) (3/4)
        + (3/2) * (quantileQ (nonNaNums (c1wDf.getColD "x")) (3/4)
            - quantileQ (nonNaNums (c1wDf.getColD "x")) (1/4))) :=
  ⟨by norm_num,
    C1_clean_capped_in_bounds ⟨{ clip_extremes := true }⟩ rfl rfl (by norm_num)
      c1wDf c1Dtypes (by simp [numericCols, c1Dtypes]) "x"
      (by simp [numericCols, c1Dtypes])
      (by simp [c1wDf, DataFrame.getColD, DataFrame.getCol, List.find?, nonNaNums,
        Val.toNum?])
      100
      (by norm_num [NumericCleaner.clean, numericCols, c1Dtypes, c1wDf,
        NumericCleaner.cleanCol, nonNaNums, Val.toNum?, List.filterMap_cons, List.filterMap_nil, DataFrame.getColD,
        DataFrame.getCol, DataFrame.setCol, DataFrame.hasCol, List.find?, List.filter,
        clipVal, quantileQ, sortQ, interp, List.insertionSort, List.orderedInsert, Int.toNat,
        min_def, max_def])⟩

/-! ### DataValidator (`cleaning/validators.py`) -/

structure ImbalanceWarning where
  column : String
  top_category : String
  top_fraction : ℚ
deriving Repr, DecidableEq

structure OutlierWarning where
  column : String
  n_outliers : ℕ
deriving Repr, DecidableEq

structure MissingExtremesWarning where
  column : String
  note : String
deriving Repr, DecidableEq

structure ValidationReport where
  imbalance_warnings : List ImbalanceWarning := []
  outlier_warnings : List OutlierWarning := []
  missing_extremes_warnings : List MissingExtremesWarning := []
deriving Repr, DecidableEq

/-- `str(v)` on a cell (float rendering approximated; no proved claim
depends on this string). -/
def Val.pyStr : Val → String
  | .na => "nan"
  | .num q => toString q
  | .str s => s
  | .bool b => if b then "True" else "False"
  | .date d => toString d

/-- The count of the most frequent cell value, missing included
(`value_counts(dropna=False).iloc[0]`). -/
def topCount (cells : List Val) : ℕ :=
  (cells.dedup.map (fun v => cells.count v)).foldr max 0

/-- A most frequent cell value (`value_counts(dropna=False).index[0]`;
pandas leaves the order of tied values unspecified, and no proved claim
depends on which tied value is picked). -/
def topVal (cells : List Val) : Val :=
  match cells.dedup.find? (fun v => cells.count v == topCount cells) with
  | some v => v
  | none => .na

/-- The columns mapped to `"categorical"`, in mapping order. -/
def catCols (dtypes : List (String × String)) : List String :=
  (dtypes.filter (fun p => p.2 == "categorical")).map (·.1)

structure DataValidator where
  imbalance_threshold : ℚ := 9/10
  outlier_iqr_multiplier : ℚ := 3/2

/-- Imbalance check of `DataValidator.validate` for one categorical
column; `vc.empty` holds exactly when the column has no rows. -/
def imbalanceWarningsFor (threshold : ℚ) (df : DataFrame) (col : String) :
    List ImbalanceWarning :=
  let cells := df.getColD col
  if cells.isEmpty then []
  else
    let frac := (topCount cells : ℚ) / (df.nRows : ℚ)
    if threshold ≤ frac then [⟨col, (topVal cells).pyStr, frac⟩] else []

/-- IQR outlier-count check of `DataValidator.validate` for one numeric
column. -/
def outlierWarningsFor (k : ℚ) (df : DataFrame) (col : String) :
    List OutlierWarning :=
  let s := nonNaNums (df.getColD col)
  if s.isEmpty then []
  else
    let q1 := quantileQ s (1/4)
    let q3 := quantileQ s (3/4)
    let iqr := q3 - q1
    let lower := q1 - k * iqr
    let upper := q3 + k * iqr
    let n := (s.filter (fun x => decide (x < lower) || decide (upper < x))).length
    if 0 < n then [⟨col, n⟩] else []

/-- Skip-NaN minimum of a numeric column (`series.min()`; NaN — `none` —
when there are no numeric values). -/
def seriesMin (cells : List Val) : Option ℚ := (nonNaNums cells).min?

/-- Skip-NaN maximum of a numeric column (`series.max()`). -/
def seriesMax (cells : List Val) : Option ℚ := (nonNaNums cells).max?

/-- `np.isclose` with its default tolerances `rtol = 1e-5`, `atol = 1e-8`. -/
def iscloseQ (a b : ℚ) : Bool :=
  decide (|a - b| ≤ 1/100000000 + (1/100000) * |b|)

/-- `np.isclose` on possibly-NaN operands: a comparison involving NaN is
never close. -/
def iscloseO : Option ℚ → Option ℚ → Bool
  | some a, some b => iscloseQ a b
  | _, _ => false

/-- Missing-extremes check of `DataValidator.validate` for one numeric
column: full-column `min`/`max` (which already skip NaN) against the
`dropna()` `min`/`max` under `np.isclose`. -/
def missingExtremesFor (df : DataFrame) (col : String) :
    List MissingExtremesWarning :=
  let cells := df.getColD col
  if cells.any Val.isNa then
    let min_full := seriesMin cells
    let max_full := seriesMax cells
    let min_no_na := seriesMin (cells.filter (fun v => !v.isNa))
    let max_no_na := seriesMax (cells.filter (fun v => !v.isNa))
    if !(iscloseO min_full min_no_na) || !(iscloseO max_full max_no_na) then
      [⟨col, "Min/Max influenced by missing values; consider checking boundary NAs."⟩]
    else []
  else []

/-- `DataValidator.validate`: the three warning scans, in source order. -/
def DataValidator.validate (v : DataValidator) (df : DataFrame)
    (dtypes : List (String × String)) : ValidationReport :=
  { imbalance_warnings :=
      (catCols dtypes).flatMap (imbalanceWarningsFor v.imbalance_threshold df)
    outlier_warnings :=
      (numericCols dtypes).flatMap (outlierWarningsFor v.outlier_iqr_multiplier df)
    missing_extremes_warnings :=
      (numericCols dtypes).flatMap (missingExtremesFor df) }

/-! Per-column warnings of a keyed scan select exactly their own column. -/

theorem filter_key_flatMap_not_mem {β : Type} (key : β → String)
    (f : String → List β) (hf : ∀ c w, w ∈ f c → key w = c) :
    ∀ (cols : List String) (col : String), col ∉ cols →
      (cols.flatMap f).filter (fun w => key w == col) = []
  | [], _, _ => rfl
  | c :: rest, col, h => by
    rw [List.flatMap_cons, List.filter_append]
    have hcc : ¬ c = col := fun hh => h (by rw [← hh]; exact List.mem_cons_self c rest)
    have h1 : (f c).filter (fun w => key w == col) = [] := by
      rw [List.filter_eq_nil_iff]
      intro w hw
      simp [hf c w hw, hcc]
    rw [h1,
      filter_key_flatMap_not_mem key f hf rest col
        (fun hh => h (List.mem_cons_of_mem c hh))]
    rfl

theorem filter_key_flatMap {β : Type} (key : β → String)
    (f : String → List β) (hf : ∀ c w, w ∈ f c → key w = c) :
    ∀ (cols : List String) (col : String), cols.Nodup → col ∈ cols →
      (cols.flatMap f).filter (fun w => key w == col) = f col
  | [], col, _, hmem => absurd hmem (List.not_mem_nil col)
  | c :: rest, col, hnd, hmem => by
    rw [List.flatMap_cons, List.filter_append]
    rcases List.mem_cons.mp hmem with rfl | hmem'
    · have h1 : (f col).filter (fun w => key w == col) = f col := by
        rw [List.filter_eq_self]
        intro w hw
        simp [hf col w hw]
      rw [h1, filter_key_flatMap_not_mem key f hf rest col (List.nodup_cons.mp hnd).1,
        List.append_nil]
    · have hne : ¬ c = col := fun hh => (List.nodup_cons.mp hnd).1 (hh ▸ hmem')
      have h1 : (f c).filter (fun w => key w == col) = [] := by
        rw [List.filter_eq_nil_iff]
        intro w hw
        simp [hf c w hw, hne]
      rw [h1, List.nil_append]
      exact filter_key_flatMap key f hf rest col (List.nodup_cons.mp hnd).2 hmem'

theorem imbalanceWarningsFor_key (threshold : ℚ) (df : DataFrame) (c : String)
    (w : ImbalanceWarning) (hw : w ∈ imbalanceWarningsFor threshold df c) :
    w.column = c := by
  unfold imbalanceWarningsFor at hw
  by_cases h1 : (df.getColD c).isEmpty
  · simp [h1] at hw
  · by_cases h2 : threshold ≤ (topCount (df.getColD c) : ℚ) / (df.nRows : ℚ)
    · simp [h1, h2] at hw
      rw [hw]
    · simp [h1, h2] at hw

theorem missingExtremesFor_key (df : DataFrame) (c : String)
    (w : MissingExtremesWarning) (hw : w ∈ missingExtremesFor df c) :
    w.column = c := by
  unfold missingExtremesFor at hw
  by_cases h1 : (df.getColD c).any Val.isNa
  · by_cases h2 :
      (!(iscloseO (seriesMin (df.getColD c))
          (seriesMin ((df.getColD c).filter (fun v => !v.isNa)))) ||
        !(iscloseO (seriesMax (df.getColD c))
          (seriesMax ((df.getColD c).filter (fun v => !v.isNa))))) = true
    · simp only [h1, if_true, h2] at hw
      simp at hw
      rw [hw]
    · simp only [h1, if_true, h2] at hw
      simp at hw
  · simp [h1] at hw

/-- `dropna()` removes only missing cells, which contribute no numeric
values, so the numeric values are unchanged. -/
theorem nonNaNums_filter_not_isNa (cells : List Val) :
    nonNaNums (cells.filter (fun v => !v.isNa)) = nonNaNums cells := by
  induction cells with
  | nil => rfl
  | cons v rest ih =>
    cases v <;>
      simpa [nonNaNums, Val.isNa, Val.toNum?, List.filter_cons,
        List.filterMap_cons] using ih

theorem iscloseQ_refl (a : ℚ) : iscloseQ a a = true := by
  unfold iscloseQ
  rw [decide_eq_true_eq]
  rw [sub_self, abs_zero]
  positivity

theorem mem_nonNaNums {cells : List Val} {a : ℚ} :
    a ∈ nonNaNums cells ↔ Val.num a ∈ cells := by
  unfold nonNaNums
  rw [List.mem_filterMap]
  constructor
  · rintro ⟨x, hx, htn⟩
    cases x <;> simp [Val.toNum?] at htn
    rwa [← htn]
  · intro h
    exact ⟨Val.num a, h, rfl⟩

/-- **C2** (amended): `DataValidator.validate()` emits an imbalance
warning for a categorical column iff the column is non-empty and the most
frequent cell value — with missing values counted as a category of their
own — has share ≥ the threshold of **all** rows (`len(df)`), not of the
non-missing rows; the warning's `top_fraction` is that all-rows share,
and at most one imbalance warning is emitted per column. -/
theorem C2_imbalance_iff (v : DataValidator) (df : DataFrame)
    (dtypes : List (String × String)) (col : String)
    (hnd : (catCols dtypes).Nodup) (hmem : col ∈ catCols dtypes) :
    (((v.validate df dtypes).imbalance_warnings.filter
        (fun w => w.column == col)) ≠ [] ↔
      (df.getColD col ≠ [] ∧
        v.imbalance_threshold ≤ (topCount (df.getColD col) : ℚ) / (df.nRows : ℚ))) ∧
    (∀ w ∈ (v.validate df dtypes).imbalance_warnings, w.column = col →
      w.top_fraction = (topCount (df.getColD col) : ℚ) / (df.nRows : ℚ)) ∧
    ((v.validate df dtypes).imbalance_warnings.filter
        (fun w => w.column == col)).length ≤ 1 := by
  have hkey := filter_key_flatMap (fun w : ImbalanceWarning => w.column)
    (imbalanceWarningsFor v.imbalance_threshold df)
    (imbalanceWarningsFor_key v.imbalance_threshold df) (catCols dtypes) col hnd hmem
  have hiw : (v.validate df dtypes).imbalance_warnings =
      (catCols dtypes).flatMap (imbalanceWarningsFor v.imbalance_threshold df) := rfl
  refine ⟨?_, ?_, ?_⟩
  · rw [hiw, hkey]
    unfold imbalanceWarningsFor
    by_cases h1 : (df.getColD col).isEmpty
    · have h1' : df.getColD col = [] := by simpa [List.isEmpty_iff] using h1
      simp [h1, h1']
    · have hne : df.getColD col ≠ [] := by simpa [List.isEmpty_iff] using h1
      by_cases h2 : v.imbalance_threshold ≤ (topCount (df.getColD col) : ℚ) / (df.nRows : ℚ)
      · simp [h1, h2, hne]
      · simp [h1, h2, hne]
  · intro w hw hcol
    have hwm : w ∈ imbalanceWarningsFor v.imbalance_threshold df col := by
      rw [← hkey]
      exact List.mem_filter.mpr ⟨by rw [← hiw]; exact hw, by simp [hcol]⟩
    unfold imbalanceWarningsFor at hwm
    by_cases h1 : (df.getColD col).isEmpty
    · simp [h1] at hwm
    · by_cases h2 : v.imbalance_threshold ≤ (topCount (df.getColD col) : ℚ) / (df.nRows : ℚ)
      · simp only [h1, Bool.false_eq_true, if_false, h2, if_true] at hwm
        rw [List.mem_singleton] at hwm
        rw [hwm]
      · simp [h1, h2] at hwm
  · rw [hiw, hkey]
    unfold imbalanceWarningsFor
    by_cases h1 : (df.getColD col).isEmpty
    · simp [h1]
    · by_cases h2 : v.imbalance_threshold ≤ (topCount (df.getColD col) : ℚ) / (df.nRows : ℚ)
      · simp [h1, h2]
      · simp [h1, h2]

/-- **C10**: the missing-extremes warning fires for a numeric column iff
the column is non-empty and all of its values are missing (both extrema
are then NaN and `np.isclose(NaN, NaN)` is false); moreover the
full-column skip-NaN extrema coincide exactly with the `dropna()`
extrema, so a column with at least one non-missing value never warns. -/
theorem C10_missing_extremes_iff (v : DataValidator) (df : DataFrame)
    (dtypes : List (String × String)) (col : String)
    (hnd : (numericCols dtypes).Nodup) (hmem : col ∈ numericCols dtypes)
    (hnum : ∀ x ∈ df.getColD col, x = Val.na ∨ ∃ q, x = Val.num q) :
    (((v.validate df dtypes).missing_extremes_warnings.filter
        (fun w => w.column == col)) ≠ [] ↔
      (df.getColD col ≠ [] ∧ ∀ x ∈ df.getColD col, x.isNa = true)) ∧
    seriesMin (df.getColD col) =
      seriesMin ((df.getColD col).filter (fun x => !x.isNa)) ∧
    seriesMax (df.getColD col) =
      seriesMax ((df.getColD col).filter (fun x => !x.isNa)) := by
  have hkey := filter_key_flatMap (fun w : MissingExtremesWarning => w.column)
    (missingExtremesFor df) (missingExtremesFor_key df) (numericCols dtypes) col hnd hmem
  have hmin : seriesMin ((df.getColD col).filter (fun x => !x.isNa)) =
      seriesMin (df.getColD col) := by
    unfold seriesMin
    rw [nonNaNums_filter_not_isNa]
  have hmax : seriesMax ((df.getColD col).filter (fun x => !x.isNa)) =
      seriesMax (df.getColD col) := by
    unfold seriesMax
    rw [nonNaNums_filter_not_isNa]
  have hmw : (v.validate df dtypes).missing_extremes_warnings =
      (numericCols dtypes).flatMap (missingExtremesFor df) := rfl
  refine ⟨?_, hmin.symm, hmax.symm⟩
  rw [hmw, hkey]
  unfold missingExtremesFor
  by_cases h1 : (df.getColD col).any Val.isNa
  · simp only [h1, if_true]
    cases hmn : seriesMin (df.getColD col) with
    | none =>
      have hnn : nonNaNums (df.getColD col) = [] := List.min?_eq_none_iff.mp hmn
      have hall : ∀ x ∈ df.getColD col, x.isNa = true := by
        intro x hx
        rcases hnum x hx with rfl | ⟨q, rfl⟩
        · rfl
        · exfalso
          have hqm : q ∈ nonNaNums (df.getColD col) := mem_nonNaNums.mpr hx
          rw [hnn] at hqm
          exact List.not_mem_nil q hqm
      have hne : df.getColD col ≠ [] := by
        intro hc
        rw [hc] at h1
        simp at h1
      have hcl : iscloseO none
          (seriesMin ((df.getColD col).filter (fun x => !x.isNa))) = false := by
        rw [hmin, hmn]
        rfl
      simp only [hcl, Bool.not_false, Bool.true_or, if_true]
      constructor
      · intro _
        exact ⟨hne, hall⟩
      · intro _
        simp
    | some a =>
      have hmnf : seriesMin ((df.getColD col).filter (fun x => !x.isNa)) = some a := by
        rw [hmin, hmn]
      have hnn : nonNaNums (df.getColD col) ≠ [] := by
        intro hc
        rw [seriesMin, hc] at hmn
        simp at hmn
      obtain ⟨b, hmb⟩ : ∃ b, seriesMax (df.getColD col) = some b := by
        cases hmb : seriesMax (df.getColD col) with
        | none => exact absurd (List.max?_eq_none_iff.mp hmb) hnn
        | some b => exact ⟨b, rfl⟩
      have hmbf : seriesMax ((df.getColD col).filter (fun x => !x.isNa)) = some b := by
        rw [hmax, hmb]
      have hcl1 : iscloseO (some a)
          (seriesMin ((df.getColD col).filter (fun x => !x.isNa))) = true := by
        rw [hmnf]
        exact iscloseQ_refl a
      have hcl2 : iscloseO (seriesMax (df.getColD col))
          (seriesMax ((df.getColD col).filter (fun x => !x.isNa))) = true := by
        rw [hmb, hmbf]
        exact iscloseQ_refl b
      have hnotall : ¬ ∀ x ∈ df.getColD col, x.isNa = true := by
        intro hall
        have ham : a ∈ nonNaNums (df.getColD col) :=
          List.min?_mem (fun x y => min_choice x y) hmn
        have hx : Val.num a ∈ df.getColD col := mem_nonNaNums.mp ham
        have := hall (Val.num a) hx
        simp [Val.isNa] at this
      simp [hcl1, hcl2, hnotall]
  · simp only [h1, Bool.false_eq_true, if_false, ne_eq, not_true_eq_false]
    constructor
    · intro hc
      exact hc.elim
    · rintro ⟨hne, hall⟩
      rcases List.exists_mem_of_ne_nil _ hne with ⟨x, hx⟩
      exact absurd (List.any_eq_true.mpr ⟨x, hx, hall x hx⟩) (by simpa using h1)

/-- A column `[missing, "a"]`: every non-missing row holds `"a"`. -/
def c2Df : DataFrame := ⟨[0, 1], [("c", [.na, .str "a"])]⟩

/-- **C2** counterexample: in the column `[missing, "a"]` the most
frequent value's share of the non-missing rows is 1 ≥ 0.9, yet no
imbalance warning is emitted — the code counts missing values as a
category of their own (`value_counts(dropna=False)`) and divides by all
rows, giving 1/2 < 0.9. -/
theorem C2_counterexample :
    (9:ℚ)/10 ≤
      ((((c2Df.getColD "c").filter (fun v => !v.isNa)).count (Val.str "a") : ℚ) /
        (((c2Df.getColD "c").filter (fun v => !v.isNa)).length : ℚ)) ∧
    (DataValidator.validate {} c2Df [("c", "categorical")]).imbalance_warnings = [] := by
  constructor
  · norm_num [c2Df, DataFrame.getColD, DataFrame.getCol, List.find?, List.filter,
      Val.isNa, List.count_cons, List.count_nil]
  · have ht : topCount [Val.na, Val.str "a"] = 1 := by decide
    norm_num [DataValidator.validate, catCols, imbalanceWarningsFor, ht, c2Df,
      DataFrame.getColD, DataFrame.getCol, DataFrame.nRows, List.find?, List.filter]

/-- A 20-row column in which `"a"` occupies 19 rows (95%). -/
def c2wDf : DataFrame :=
  ⟨List.range 20,
    [("c", [.str "a", .str "a", .str "a", .str "a", .str "a", .str "a", .str "a",
            .str "a", .str "a", .str "a", .str "a", .str "a", .str "a", .str "a",
            .str "a", .str "a", .str "a", .str "a", .str "a", .str "b"])]⟩

/-- **C2** witness: the amended characterization applied to the default
validator and the 95%-dominated 20-row column. -/
theorem C2_imbalance_iff_witness :
    (catCols [("c", "categorical")]).Nodup ∧
    ((((DataValidator.validate {} c2wDf [("c", "categorical")]).imbalance_warnings.filter
        (fun w => w.column == "c")) ≠ [] ↔
      (c2wDf.getColD "c" ≠ [] ∧
        ({} : DataValidator).imbalance_threshold ≤
          (topCount (c2wDf.getColD "c") : ℚ) / (c2wDf.nRows : ℚ))) ∧
    (∀ w ∈ (DataValidator.validate {} c2wDf [("c", "categorical")]).imbalance_warnings,
        w.column = "c" →
      w.top_fraction = (topCount (c2wDf.getColD "c") : ℚ) / (c2wDf.nRows : ℚ)) ∧
    (((DataValidator.validate {} c2wDf [("c", "categorical")]).imbalance_warnings.filter
        (fun w => w.column == "c")).length ≤ 1)) :=
  ⟨by decide,
    C2_imbalance_iff {} c2wDf [("c", "categorical")] "c" (by decide) (by decide)⟩

def c10wDf : DataFrame := ⟨[0, 1], [("x", [.na, .na])]⟩

/-- **C10** witness: the characterization applied to an all-missing
two-row numeric column. -/
theorem C10_missing_extremes_iff_witness :
    (numericCols [("x", "numeric")]).Nodup ∧
    ((((DataValidator.validate {} c10wDf [("x", "numeric")]).missing_extremes_warnings.filter
        (fun w => w.column == "x")) ≠ [] ↔
      (c10wDf.getColD "x" ≠ [] ∧ ∀ x ∈ c10wDf.getColD "x", x.isNa = true)) ∧
    seriesMin (c10wDf.getColD "x") =
      seriesMin ((c10wDf.getColD "x").filter (fun x => !x.isNa)) ∧
    seriesMax (c10wDf.getColD "x") =
      seriesMax ((c10wDf.getColD "x").filter (fun x => !x.isNa))) :=
  ⟨by decide,
    C10_missing_extremes_iff {} c10wDf [("x", "numeric")] "x" (by decide) (by decide)
      (by
        intro x hx
        have hxe : x = Val.na := by
          simpa [c10wDf, DataFrame.getColD, DataFrame.getCol, List.find?] using hx
        exact Or.inl hxe)⟩

/-! ### TypeInference (`ingestion/type_inference.py`, `core/schemas.py`) -/

structure ColumnSchema where
  name : String
  logical_type : String
  inferred_type : String
  user_override : Option String := none
deriving Repr, DecidableEq

structure TableSchema where
  name : String
  columns : List (String × ColumnSchema) := []
deriving Repr, DecidableEq

def digitsToNat (ds : List Char) : ℕ :=
  ds.foldl (fun acc c => acc * 10 + (c.toNat - 48)) 0

def isSpaceChar (c : Char) : Bool :=
  c == ' ' || c == '\t' || c == '\n' || c == '\r'

def trimChars (cs : List Char) : List Char :=
  ((cs.dropWhile isSpaceChar).reverse.dropWhile isSpaceChar).reverse

def splitOnChar (sep : Char) : List Char → List (List Char)
  | [] => [[]]
  | c :: rest =>
    let r := splitOnChar sep rest
    if c == sep then [] :: r
    else
      match r with
      | h :: t => (c :: h) :: t
      | [] => [[c]]

/-- `pd.to_numeric` on a string: an optionally signed decimal literal
(possibly with a fractional part), surrounding whitespace allowed.
Scientific notation is not modelled; no claim exercises it. -/
def parseDecimal (s : String) : Option ℚ :=
  let t := trimChars s.toList
  let sgn : ℚ := if t.head? == some '-' then -1 else 1
  let body := if t.head? == some '-' || t.head? == some '+' then t.drop 1 else t
  match splitOnChar '.' body with
  | [ip] =>
    if 0 < ip.length && ip.all Char.isDigit then
      some (sgn * (digitsToNat ip : ℚ))
    else none
  | [ip, fp] =>
    if (0 < ip.length || 0 < fp.length) && ip.all Char.isDigit &&
        fp.all Char.isDigit then
      some (sgn * ((digitsToNat ip : ℚ) +
        (digitsToNat fp : ℚ) / (10 : ℚ) ^ fp.length))
    else none
  | _ => none

/-- `pd.to_numeric(·, errors="coerce")` on one non-missing cell: `none`
when the cell does not convert (pandas yields NaN). -/
def coerceNum : Val → Option ℚ
  | .na => none
  | .num q => some q
  | .bool b => some (if b then 1 else 0)
  | .str s => parseDecimal s
  | .date _ => none

/-- `pd.to_datetime` on a string, modelling the ISO `YYYY-MM-DD` format;
the further formats pandas accepts are not needed by any claim (the
claims' inputs — short digit strings, `"N/A"` — also fail in pandas). -/
def parseDateISO (s : String) : Option ℤ :=
  match splitOnChar '-' (trimChars s.toList) with
  | [y, m, d] =>
    if y.length == 4 && m.length == 2 && d.length == 2 &&
        y.all Char.isDigit && m.all Char.isDigit && d.all Char.isDigit then
      let mn := digitsToNat m
      let dn := digitsToNat d
      if 1 ≤ mn && mn ≤ 12 && 1 ≤ dn && dn ≤ 31 then
        some ((digitsToNat y : ℤ) * 10000 + (mn : ℤ) * 100 + (dn : ℤ))
      else none
    else none
  | _ => none

/-- `pd.to_datetime(·, errors="coerce")` on one non-missing cell. -/
def coerceDate : Val → Option ℤ
  | .date d => some d
  | .str s => parseDateISO s
  | _ => none

/-- `TypeInference._try_datetime`: the fraction of the (already
missing-dropped) series parsing as datetime exceeds 0.7. -/
def tryDatetime (series : List Val) : Bool :=
  decide ((7:ℚ)/10 < ((series.filterMap coerceDate).length : ℚ) / (series.length : ℚ))

def boolTokenSet : List (List Char) :=
  ["true".toList, "false".toList, "yes".toList, "no".toList,
    "1".toList, "0".toList, "t".toList, "f".toList]

/-- `str(v).lower()`, as a character list. -/
def Val.pyStrLower (v : Val) : List Char := v.pyStr.toList.map Char.toLower

/-- The boolean-likeness check: the case-folded distinct values all lie
in the canonical token set and number at most 2. -/
def boolLike (series : List Val) : Bool :=
  ((series.map Val.pyStrLower).dedup).all (fun s => boolTokenSet.contains s) &&
    ((series.map Val.pyStrLower).dedup).length ≤ 2

structure TypeInference where
  high_cardinality_threshold : ℕ := 50
  numeric_coerce_fraction : ℚ := 95/100

/-- The ordered heuristics of `TypeInference.infer` for one column:
empty → categorical; numeric-coercion fraction ≥ threshold (with at
least one coerced value) → numeric; datetime → datetime; boolean-like →
boolean; else categorical. -/
def TypeInference.inferLogical (ti : TypeInference) (cells : List Val) : String :=
  if (cells.filter (fun v => !v.isNa)).isEmpty then "categorical"
  else if 0 < ((cells.filter (fun v => !v.isNa)).filterMap coerceNum).length ∧
      ti.numeric_coerce_fraction ≤
        ((((cells.filter (fun v => !v.isNa)).filterMap coerceNum).length : ℚ) /
          (((cells.filter (fun v => !v.isNa)).length : ℚ))) then "numeric"
  else if tryDatetime (cells.filter (fun v => !v.isNa)) then "datetime"
  else if boolLike (cells.filter (fun v => !v.isNa)) then "boolean"
  else "categorical"

/-- `TypeInference.infer`: one `ColumnSchema` per column (the raw
`dtype` string of an all-string frame is `"object"`). -/
def TypeInference.infer (ti : TypeInference) (df : DataFrame) : TableSchema :=
  ⟨"inferred",
    df.cols.map (fun p => (p.1, ⟨p.1, ti.inferLogical p.2, "object", none⟩))⟩

def c3Cells : List Val := [.str "1", .str "2", .str "3", .str "N/A", .str "5"]

def c3Df : DataFrame := ⟨[0, 1, 2, 3, 4], [("s", c3Cells)]⟩

/-- **C3**: with the default numeric threshold 0.95, `infer()` classifies
the column `["1","2","3","N/A","5"]` as categorical (only 4/5 = 0.8 of
its values parse as numbers and the datetime/boolean heuristics fail);
and in general a column with at least one non-missing value whose
parsing fraction is ≥ 0.95 is classified numeric. -/
theorem C3_infer_threshold :
    ((({} : TypeInference).infer c3Df).columns =
      [("s", ⟨"s", "categorical", "object", none⟩)]) ∧
    (∀ cells : List Val, (cells.filter (fun v => !v.isNa)) ≠ [] →
      (95:ℚ)/100 ≤
          (((cells.filter (fun v => !v.isNa)).filterMap coerceNum).length : ℚ) /
            ((cells.filter (fun v => !v.isNa)).length : ℚ) →
      ({} : TypeInference).inferLogical cells = "numeric") := by
  constructor
  · have hfil : c3Cells.filter (fun v => !v.isNa) = c3Cells := by decide
    have hcount : (c3Cells.filterMap coerceNum).length = 4 := by decide
    have hlen : c3Cells.length = 5 := by decide
    have hdt0 : (c3Cells.filterMap coerceDate).length = 0 := by decide
    have hbl : boolLike c3Cells = false := by decide
    have hdt : tryDatetime c3Cells = false := by
      unfold tryDatetime
      rw [hdt0, hlen]
      norm_num
    have hcat : ({} : TypeInference).inferLogical c3Cells = "categorical" := by
      unfold TypeInference.inferLogical
      rw [hfil]
      rw [if_neg (by decide), if_neg ?hnum, if_neg (by rw [hdt]; simp),
        if_neg (by rw [hbl]; simp)]
      case hnum =>
        rw [hcount, hlen]
        rintro ⟨-, hfrac⟩
        norm_num at hfrac
    simp [TypeInference.infer, c3Df, hcat]
  · intro cells hne hfrac
    unfold TypeInference.inferLogical
    have hempty : ((cells.filter (fun v => !v.isNa)).isEmpty) = false := by
      simpa [List.isEmpty_iff] using hne
    have hcpos : 0 < ((cells.filter (fun v => !v.isNa)).filterMap coerceNum).length := by
      by_contra hc
      have hc0 : ((cells.filter (fun v => !v.isNa)).filterMap coerceNum).length = 0 := by
        omega
      rw [hc0] at hfrac
      rw [Nat.cast_zero, zero_div] at hfrac
      norm_num at hfrac
    rw [if_neg (by simp [hempty]), if_pos ⟨hcpos, hfrac⟩]

/-- **C3** witness: the general part applied to a one-value column that
parses completely. -/
theorem C3_infer_threshold_witness :
    ([Val.num 1].filter (fun v => !v.isNa) ≠ []) ∧
    ({} : TypeInference).inferLogical [Val.num 1] = "numeric" :=
  ⟨by decide,
    C3_infer_threshold.2 [Val.num 1] (by decide)
      (by
        simp only [List.filter_cons, List.filter_nil, Val.isNa, Bool.not_false,
          if_true, List.filterMap_cons, List.filterMap_nil, coerceNum]
        norm_num)⟩

/-! ### MissingValueHandler (`cleaning/missing_value_handler.py`) -/

structure MissingStrategyConfig where
  strategy : String := "auto"
  constant_value : Option Val := none
  group_by : Option String := none
deriving Repr, DecidableEq

/-- `fillna(v)`: replace the missing cells by `v`. -/
def fillna (cells : List Val) (v : Val) : List Val :=
  cells.map (fun c => if c.isNa then v else c)

/-- Fill with an optional value: `none` models a NaN fill value (the
mean/median of an all-missing column), which changes nothing. -/
def fillnaWith (cells : List Val) : Option Val → List Val
  | none => cells
  | some v => fillna cells v

def meanQ (l : List ℚ) : Option ℚ :=
  if l.isEmpty then none else some (l.sum / (l.length : ℚ))

def medianQ (l : List ℚ) : Option ℚ :=
  if l.isEmpty then none else some (quantileQ l (1/2))

/-- The first value of `Series.mode()` — a most frequent non-missing
value — or `none` when the column has no non-missing values.  (pandas
sorts tied modes; which tied value is picked is not relied upon.) -/
def modeFirst (cells : List Val) : Option Val :=
  let nonNa := cells.filter (fun v => !v.isNa)
  nonNa.dedup.find? (fun v => nonNa.count v == topCount nonNa)

def ffillAux : List Val → Option Val → List Val
  | [], _ => []
  | c :: rest, last =>
    if c.isNa then
      (last.getD Val.na) :: ffillAux rest last
    else c :: ffillAux rest (some c)

/-- `fillna(method="ffill")`. -/
def ffill (cells : List Val) : List Val := ffillAux cells none

/-- `fillna(method="bfill")`. -/
def bfill (cells : List Val) : List Val := (ffill cells.reverse).reverse

/-- One output cell of `groupby(group_by)[col].transform(...)`: a row
with a missing group key gets NaN; otherwise a missing cell is filled
with its group's median (numeric) or first mode (else), and stays
missing when the group provides no such statistic. -/
def byGroupCell (groupCells cells : List Val) (colType : String) (i : ℕ) : Val :=
  let g := groupCells.getD i .na
  if g.isNa then .na
  else
    let groupVals := (List.range cells.length).filterMap (fun j =>
      if groupCells.getD j .na == g then some (cells.getD j .na) else none)
    let c := cells.getD i .na
    if c.isNa then
      if colType == "numeric" then
        match medianQ (nonNaNums groupVals) with
        | some m => .num m
        | none => .na
      else
        match modeFirst groupVals with
        | some m => m
        | none => c
    else c

def byGroupCol (groupCells cells : List Val) (colType : String) : List Val :=
  (List.range cells.length).map (byGroupCell groupCells cells colType)

/-- The new cell list assigned by the non-`drop` branches of the
per-column dispatch of `MissingValueHandler.apply` (each branch is an
assignment `result[col] = …`); `none` when the branch assigns nothing:
an empty mode, or a `constant` fill without a value (where pandas would
raise — no claim exercises that configuration). -/
def nonDropCells (df : DataFrame) (dtypes : List (String × String))
    (strategies : List (String × MissingStrategyConfig)) (col : String) :
    Option (List Val) :=
  let colType := (dtypes.lookup col).getD "unknown"
  let cfg := (strategies.lookup col).getD {}
  let cells := df.getColD col
  if cfg.strategy == "mean" && colType == "numeric" then
    some (fillnaWith cells ((meanQ (nonNaNums cells)).map Val.num))
  else if cfg.strategy == "median" && colType == "numeric" then
    some (fillnaWith cells ((medianQ (nonNaNums cells)).map Val.num))
  else if cfg.strategy == "mode" then
    (modeFirst cells).map (fillna cells)
  else if cfg.strategy == "ffill" then some (ffill cells)
  else if cfg.strategy == "bfill" then some (bfill cells)
  else if cfg.strategy == "constant" then
    cfg.constant_value.map (fillna cells)
  else if cfg.strategy == "by_group" && ((cfg.group_by.getD "") != "") then
    some (byGroupCol (df.getColD (cfg.group_by.getD "")) cells colType)
  else
    if colType == "numeric" then
      some (fillnaWith cells ((medianQ (nonNaNums cells)).map Val.num))
    else
      (modeFirst cells).map (fillna cells)

/-- One iteration of the column loop of `MissingValueHandler.apply`. -/
def applyStrategyCol (df : DataFrame) (dtypes : List (String × String))
    (strategies : List (String × MissingStrategyConfig)) (col : String) :
    DataFrame :=
  if ((strategies.lookup col).getD {}).strategy == "drop" then
    df.dropnaSubset col
  else
    match nonDropCells df dtypes strategies col with
    | some vs => df.setCol col vs
    | none => df

/-- `MissingValueHandler.apply`: the per-column loop over the frame's
columns, threading the (possibly row-dropped) frame. -/
def MissingValueHandler.apply (df : DataFrame)
    (dtypes : List (String × String))
    (strategies : List (String × MissingStrategyConfig)) : DataFrame :=
  df.colNames.foldl (fun acc col => applyStrategyCol acc dtypes strategies col) df

/-- Under well-formedness, a present column is index-aligned. -/
theorem getColD_length_of_WF (df : DataFrame) (X : String) (hwf : df.WF)
    (hmem : X ∈ df.colNames) : (df.getColD X).length = df.index.length := by
  have hex : ∃ p, df.cols.find? (fun q => q.1 == X) = some p := by
    rcases List.mem_map.mp hmem with ⟨p, hp, hpX⟩
    have hs : (df.cols.find? (fun q => q.1 == X)).isSome := by
      rw [List.find?_isSome]
      exact ⟨p, hp, by simp [hpX]⟩
    exact Option.isSome_iff_exists.mp hs
  rcases hex with ⟨p, hfind⟩
  have hpmem : p ∈ df.cols := List.mem_of_find?_eq_some hfind
  have hget : df.getColD X = p.2 := by
    unfold DataFrame.getColD DataFrame.getCol
    rw [hfind]
    rfl
  rw [hget]
  exact hwf.1 p hpmem

theorem applyStrategyCol_not_drop_index (df : DataFrame)
    (dtypes : List (String × String))
    (strategies : List (String × MissingStrategyConfig)) (c : String)
    (h : ((strategies.lookup c).getD {}).strategy ≠ "drop") :
    (applyStrategyCol df dtypes strategies c).index = df.index := by
  unfold applyStrategyCol
  rw [if_neg (by simpa using h)]
  cases hnd : nonDropCells df dtypes strategies c with
  | none => rfl
  | some vs => exact DataFrame.setCol_index df c vs

theorem applyStrategyCol_not_drop_getCol (df : DataFrame)
    (dtypes : List (String × String))
    (strategies : List (String × MissingStrategyConfig)) (c c' : String)
    (h : ((strategies.lookup c).getD {}).strategy ≠ "drop") (hcc : c' ≠ c) :
    (applyStrategyCol df dtypes strategies c).getCol c' = df.getCol c' := by
  unfold applyStrategyCol
  rw [if_neg (by simpa using h)]
  cases hnd : nonDropCells df dtypes strategies c with
  | none => rfl
  | some vs => exact DataFrame.getCol_setCol_other df c c' vs hcc

theorem applyMask_keepMask_length {α : Type} :
    ∀ (cells : List Val) (idx : List α), cells.length = idx.length →
      (applyMask (keepMask cells) idx).length =
        idx.length - ((cells.filter (fun v => v.isNa)).length)
  | [], [], _ => rfl
  | c :: cs, i :: is, h => by
    have h' : cs.length = is.length := Nat.succ_injective h
    have hle : ((cs.filter (fun v => v.isNa)).length) ≤ is.length := by
      calc (cs.filter (fun v => v.isNa)).length ≤ cs.length := List.length_filter_le _ _
        _ = is.length := h'
    have ih := applyMask_keepMask_length cs is h'
    by_cases hc : c.isNa
    · have hm : keepMask (c :: cs) = false :: keepMask cs := by
        simp [keepMask, hc]
      have hf : (c :: cs).filter (fun v => v.isNa) = c :: cs.filter (fun v => v.isNa) := by
        simp [List.filter_cons, hc]
      rw [hm, hf,
        show applyMask (false :: keepMask cs) (i :: is) = applyMask (keepMask cs) is
          from rfl, ih]
      simp only [List.length_cons]
      omega
    · have hc' : c.isNa = false := by simpa using hc
      have hm : keepMask (c :: cs) = true :: keepMask cs := by
        simp [keepMask, hc']
      have hf : (c :: cs).filter (fun v => v.isNa) = cs.filter (fun v => v.isNa) := by
        simp [List.filter_cons, hc']
      rw [hm, hf,
        show applyMask (true :: keepMask cs) (i :: is) = i :: applyMask (keepMask cs) is
          from rfl]
      simp only [List.length_cons]
      rw [ih]
      omega
  | [], _ :: _, h => by simp at h
  | _ :: _, [], h => by simp at h

/-- The fold over columns that are not `X` and carry a non-`drop`
strategy changes neither the index nor column `X`. -/
theorem foldl_apply_frame (dtypes : List (String × String))
    (strategies : List (String × MissingStrategyConfig)) (X : String)
    (hothers : ∀ c, c ≠ X → ((strategies.lookup c).getD {}).strategy ≠ "drop") :
    ∀ (cols : List String) (df : DataFrame), X ∉ cols →
      ((cols.foldl (fun acc col => applyStrategyCol acc dtypes strategies col) df).index
          = df.index ∧
        (cols.foldl (fun acc col => applyStrategyCol acc dtypes strategies col) df).getCol X
          = df.getCol X)
  | [], _, _ => ⟨rfl, rfl⟩
  | c :: rest, df, h => by
    have hcX : c ≠ X := fun hh => h (hh ▸ List.mem_cons_self c rest)
    have hXr : X ∉ rest := fun hh => h (List.mem_cons_of_mem c hh)
    have hstep := foldl_apply_frame dtypes strategies X hothers rest
      (applyStrategyCol df dtypes strategies c) hXr
    rw [List.foldl_cons]
    refine ⟨?_, ?_⟩
    · rw [hstep.1, applyStrategyCol_not_drop_index df dtypes strategies c (hothers c hcX)]
    · rw [hstep.2, applyStrategyCol_not_drop_getCol df dtypes strategies c X
        (hothers c hcX) (fun hh => hcX hh.symm)]

/-- Core induction for C4: folding the per-column strategy loop over a
duplicate-free column list containing `X` (the only `drop` column)
shrinks the index by exactly the missing-count of `X`. -/
theorem foldl_apply_nRows (dtypes : List (String × String))
    (strategies : List (String × MissingStrategyConfig)) (X : String)
    (hX : ((strategies.lookup X).getD {}).strategy = "drop")
    (hothers : ∀ c, c ≠ X → ((strategies.lookup c).getD {}).strategy ≠ "drop") :
    ∀ (cols : List String) (df : DataFrame), cols.Nodup → X ∈ cols →
      (df.getColD X).length = df.index.length →
      (cols.foldl (fun acc col => applyStrategyCol acc dtypes strategies col) df).index.length
        = df.index.length - (((df.getColD X).filter (fun v => v.isNa)).length)
  | [], _, _, hmem, _ => absurd hmem (List.not_mem_nil X)
  | c :: rest, df, hnd, hmem, hlen => by
    rw [List.foldl_cons]
    rcases List.mem_cons.mp hmem with rfl | hmem'
    · have hXr : X ∉ rest := (List.nodup_cons.mp hnd).1
      have hdrop : applyStrategyCol df dtypes strategies X = df.dropnaSubset X := by
        unfold applyStrategyCol
        rw [if_pos (by simpa using hX)]
      rw [hdrop,
        (foldl_apply_frame dtypes strategies X hothers rest (df.dropnaSubset X) hXr).1]
      exact applyMask_keepMask_length (df.getColD X) df.index hlen
    · have hcX : c ≠ X := fun hh => (List.nodup_cons.mp hnd).1 (hh ▸ hmem')
      have hstep_idx := applyStrategyCol_not_drop_index df dtypes strategies c (hothers c hcX)
      have hstep_col := applyStrategyCol_not_drop_getCol df dtypes strategies c X
        (hothers c hcX) (fun hh => hcX hh.symm)
      have hstep_colD : (applyStrategyCol df dtypes strategies c).getColD X =
          df.getColD X := by
        unfold DataFrame.getColD
        rw [hstep_col]
      have ih := foldl_apply_nRows dtypes strategies X hX hothers rest
        (applyStrategyCol df dtypes strategies c) (List.nodup_cons.mp hnd).2 hmem'
        (by rw [hstep_colD, hstep_idx]; exact hlen)
      rw [ih, hstep_idx, hstep_colD]

/-- **C4**: with the `drop` strategy on column `X` and non-`drop`
strategies everywhere else (`constant` strategies carrying a value),
`MissingValueHandler.apply()` returns exactly
`input rows − (rows where X was missing)` rows. -/
theorem C4_drop_row_count (df : DataFrame) (dtypes : List (String × String))
    (strategies : List (String × MissingStrategyConfig)) (X : String)
    (hwf : df.WF)
    (hX : ((strategies.lookup X).getD {}).strategy = "drop")
    (hothers : ∀ c, c ≠ X → ((strategies.lookup c).getD {}).strategy ≠ "drop")
    (hcv : ∀ p ∈ strategies, p.2.strategy = "constant" → p.2.constant_value.isSome)
    (hmem : X ∈ df.colNames) :
    (MissingValueHandler.apply df dtypes strategies).nRows =
      df.nRows - (((df.getColD X).filter (fun v => v.isNa)).length) := by
  unfold MissingValueHandler.apply DataFrame.nRows
  exact foldl_apply_nRows dtypes strategies X hX hothers df.colNames df
    hwf.2 hmem (getColD_length_of_WF df X hwf hmem)

def c4Df : DataFrame :=
  ⟨[0, 1, 2], [("x", [.num 1, .na, .num 3]), ("y", [.na, .str "u", .str "u"])]⟩

def c4Dtypes : List (String × String) := [("x", "numeric"), ("y", "categorical")]

def c4Strategies : List (String × MissingStrategyConfig) :=
  [("x", { strategy := "drop" }), ("y", { strategy := "mode" })]

/-- **C4** witness: dropping on `x` (one missing row) combined with a
`mode` fill on `y` leaves `3 − 1` rows. -/
theorem C4_drop_row_count_witness :
    c4Df.WF ∧
    (MissingValueHandler.apply c4Df c4Dtypes c4Strategies).nRows =
      c4Df.nRows - (((c4Df.getColD "x").filter (fun v => v.isNa)).length) :=
  ⟨by unfold DataFrame.WF; decide,
    C4_drop_row_count c4Df c4Dtypes c4Strategies "x"
      (by unfold DataFrame.WF; decide) (by decide)
      (by
        intro c hc
        by_cases hy : c = "y"
        · subst hy
          decide
        · have h1 : (c == "x") = false := by simp [hc]
          have h2 : (c == "y") = false := by simp [hy]
          have hnone : c4Strategies.lookup c = none := by
            simp [c4Strategies, List.lookup, h1, h2]
          rw [hnone]
          decide)
      (by decide) (by decide)⟩

/-! ### TypeCaster (`cleaning/type_casting.py`) -/

structure TypeCastingConfig where
  datetime_format : Option String := none
  errors : String := "coerce"
deriving Repr, DecidableEq

structure TypeCaster where
  config : TypeCastingConfig := {}

def lowerChars (cs : List Char) : List Char := cs.map Char.toLower

/-- `pd.to_numeric(result[col], errors=...)` on a whole column: `raise`
errors on any unparseable non-missing cell, `ignore` returns the column
unchanged when anything fails, `coerce` turns failures into missing. -/
def toNumericCol (errors : String) (cells : List Val) : Except String (List Val) :=
  if errors == "raise" then
    if cells.any (fun v => !v.isNa && (coerceNum v).isNone) then
      Except.error "Unable to parse string"
    else
      Except.ok (cells.map (fun v => match coerceNum v with
        | some q => Val.num q
        | none => Val.na))
  else if errors == "ignore" then
    if cells.any (fun v => !v.isNa && (coerceNum v).isNone) then Except.ok cells
    else
      Except.ok (cells.map (fun v => match coerceNum v with
        | some q => Val.num q
        | none => Val.na))
  else
    Except.ok (cells.map (fun v => match coerceNum v with
      | some q => Val.num q
      | none => Val.na))

/-- `pd.to_datetime(result[col], format=..., errors=...)`; an explicit
format string is not modelled (no claim supplies one). -/
def toDatetimeCol (errors : String) (cells : List Val) : Except String (List Val) :=
  if errors == "raise" then
    if cells.any (fun v => !v.isNa && (coerceDate v).isNone) then
      Except.error "time data does not match format"
    else
      Except.ok (cells.map (fun v => match coerceDate v with
        | some d => Val.date d
        | none => Val.na))
  else if errors == "ignore" then
    if cells.any (fun v => !v.isNa && (coerceDate v).isNone) then Except.ok cells
    else
      Except.ok (cells.map (fun v => match coerceDate v with
        | some d => Val.date d
        | none => Val.na))
  else
    Except.ok (cells.map (fun v => match coerceDate v with
      | some d => Val.date d
      | none => Val.na))

def boolMapTokens : List (List Char × Bool) :=
  [("true".toList, true), ("t".toList, true), ("yes".toList, true),
    ("y".toList, true), ("1".toList, true),
    ("false".toList, false), ("f".toList, false), ("no".toList, false),
    ("n".toList, false), ("0".toList, false)]

/-- `.astype("string").str.strip().str.lower().map({...})` on one cell:
missing propagates and unmapped tokens become missing, under every error
policy. -/
def castBoolCell : Val → Val
  | .na => .na
  | v =>
    match boolMapTokens.lookup (lowerChars (trimChars v.pyStr.toList)) with
    | some b => .bool b
    | none => .na

/-- One iteration of the `for col, t in dtypes.items()` loop of
`TypeCaster.cast`: absent columns are skipped; `categorical`/`ordinal`
keep the cell values (they only re-tag the container); unknown logical
types pass through. -/
def castStep (cfg : TypeCastingConfig) (acc : DataFrame) (p : String × String) :
    Except String DataFrame :=
  if !acc.hasCol p.1 then Except.ok acc
  else if p.2 == "numeric" then
    (toNumericCol cfg.errors (acc.getColD p.1)).map (acc.setCol p.1)
  else if p.2 == "datetime" then
    (toDatetimeCol cfg.errors (acc.getColD p.1)).map (acc.setCol p.1)
  else if p.2 == "boolean" then
    Except.ok (acc.setCol p.1 ((acc.getColD p.1).map castBoolCell))
  else if p.2 == "categorical" then Except.ok (acc.setCol p.1 (acc.getColD p.1))
  else if p.2 == "ordinal" then Except.ok (acc.setCol p.1 (acc.getColD p.1))
  else Except.ok acc

/-- The loop body of `TypeCaster.cast` on the fallible accumulator: a
raised exception propagates past the remaining columns. -/
def castFoldStep (cfg : TypeCastingConfig) (acc : Except String DataFrame)
    (p : String × String) : Except String DataFrame :=
  match acc with
  | Except.error e => Except.error e
  | Except.ok d => castStep cfg d p

/-- `TypeCaster.cast`: the column loop; an exception aborts the whole
cast (no partial frame is returned). -/
def TypeCaster.cast (tc : TypeCaster) (df : DataFrame)
    (dtypes : List (String × String)) : Except String DataFrame :=
  dtypes.foldl (castFoldStep tc.config) (Except.ok df)

theorem castFold_error (cfg : TypeCastingConfig) (e : String) :
    ∀ dtypes : List (String × String),
      dtypes.foldl (castFoldStep cfg) (Except.error e) = Except.error e
  | [] => rfl
  | _ :: rest => castFold_error cfg e rest

theorem setCol_colNames_of_hasCol (df : DataFrame) (c : String) (vs : List Val)
    (h : df.hasCol c = true) :
    (df.setCol c vs).colNames = df.colNames := by
  unfold DataFrame.setCol DataFrame.colNames
  rw [if_pos h]
  show List.map _ (List.map _ df.cols) = _
  rw [List.map_map]
  apply List.map_congr_left
  intro p _
  by_cases hp : p.1 = c
  · simp [hp]
  · simp [hp]

/-- A successful cast step preserves the column-name list and every
column other than its own. -/
theorem castStep_frame (cfg : TypeCastingConfig) (d d' : DataFrame)
    (p : String × String) (h : castStep cfg d p = Except.ok d') :
    d'.colNames = d.colNames ∧ ∀ c, c ≠ p.1 → d'.getCol c = d.getCol c := by
  unfold castStep at h
  by_cases h0 : d.hasCol p.1
  · have hnames : ∀ vs : List Val, (d.setCol p.1 vs).colNames = d.colNames :=
      fun vs => setCol_colNames_of_hasCol d p.1 vs h0
    have hother : ∀ (vs : List Val) (c : String), c ≠ p.1 →
        (d.setCol p.1 vs).getCol c = d.getCol c :=
      fun vs c hc => DataFrame.getCol_setCol_other d p.1 c vs hc
    rw [if_neg (by simp [h0])] at h
    by_cases h1 : p.2 = "numeric"
    · rw [if_pos (by simp [h1])] at h
      cases hn : toNumericCol cfg.errors (d.getColD p.1) with
      | error e => rw [hn] at h; exact absurd h (by simp [Except.map])
      | ok vs =>
        rw [hn] at h
        simp only [Except.map] at h
        cases h
        exact ⟨hnames vs, fun c hc => hother vs c hc⟩
    · rw [if_neg (by simp [h1])] at h
      by_cases h2 : p.2 = "datetime"
      · rw [if_pos (by simp [h2])] at h
        cases hn : toDatetimeCol cfg.errors (d.getColD p.1) with
        | error e => rw [hn] at h; exact absurd h (by simp [Except.map])
        | ok vs =>
          rw [hn] at h
          simp only [Except.map] at h
          cases h
          exact ⟨hnames vs, fun c hc => hother vs c hc⟩
      · rw [if_neg (by simp [h2])] at h
        by_cases h3 : p.2 = "boolean"
        · rw [if_pos (by simp [h3])] at h
          cases h
          exact ⟨hnames _, fun c hc => hother _ c hc⟩
        · rw [if_neg (by simp [h3])] at h
          by_cases h4 : p.2 = "categorical"
          · rw [if_pos (by simp [h4])] at h
            cases h
            exact ⟨hnames _, fun c hc => hother _ c hc⟩
          · rw [if_neg (by simp [h4])] at h
            by_cases h5 : p.2 = "ordinal"
            · rw [if_pos (by simp [h5])] at h
              cases h
              exact ⟨hnames _, fun c hc => hother _ c hc⟩
            · rw [if_neg (by simp [h5])] at h
              cases h
              exact ⟨rfl, fun _ _ => rfl⟩
  · rw [if_pos (by simp [h0])] at h
    cases h
    exact ⟨rfl, fun _ _ => rfl⟩

theorem hasCol_iff_mem_colNames (df : DataFrame) (c : String) :
    df.hasCol c = true ↔ c ∈ df.colNames := by
  unfold DataFrame.hasCol DataFrame.colNames
  rw [List.any_eq_true]
  constructor
  · rintro ⟨p, hp, hpc⟩
    exact List.mem_map.mpr ⟨p, hp, by simpa using hpc⟩
  · intro h
    rcases List.mem_map.mp h with ⟨p, hp, hpc⟩
    exact ⟨p, hp, by simp [hpc]⟩

/-- A cast fold over columns other than `col` that ends successfully
leaves column `col` unchanged. -/
theorem castFold_frame (cfg : TypeCastingConfig) (col : String) :
    ∀ (dtypes : List (String × String)) (d d' : DataFrame),
      col ∉ dtypes.map (·.1) →
      dtypes.foldl (castFoldStep cfg) (Except.ok d) = Except.ok d' →
      d'.getCol col = d.getCol col
  | [], d, d', _, h => by
    cases h
    rfl
  | p :: rest, d, d', hnm, h => by
    have hp1 : col ≠ p.1 := fun hh => hnm (by rw [List.map_cons]; exact hh ▸ List.mem_cons_self _ _)
    have hrest : col ∉ rest.map (·.1) := fun hh => hnm (by rw [List.map_cons]; exact List.mem_cons_of_mem _ hh)
    rw [List.foldl_cons] at h
    cases hs : castStep cfg d p with
    | error e =>
      rw [show castFoldStep cfg (Except.ok d) p = Except.error e by
        simp [castFoldStep, hs], castFold_error cfg e rest] at h
      cases h
    | ok dd =>
      rw [show castFoldStep cfg (Except.ok d) p = Except.ok dd by
        simp [castFoldStep, hs]] at h
      rw [castFold_frame cfg col rest dd d' hrest h,
        (castStep_frame cfg d dd p hs).2 col hp1]

/-- Under `raise`, reaching a numeric column with an unparseable
non-missing cell aborts the fold. -/
theorem castFold_raise_error (cfg : TypeCastingConfig)
    (hcfg : cfg.errors = "raise") (col : String) :
    ∀ (dtypes : List (String × String)) (d : DataFrame),
      (dtypes.map (·.1)).Nodup → (col, "numeric") ∈ dtypes →
      d.hasCol col = true →
      ((d.getColD col).any (fun v => !v.isNa && (coerceNum v).isNone)) = true →
      ∃ e, dtypes.foldl (castFoldStep cfg) (Except.ok d) = Except.error e
  | [], _, _, hmem, _, _ => absurd hmem (List.not_mem_nil _)
  | p :: rest, d, hnd, hmem, hcol, hbad => by
    rw [List.foldl_cons]
    rcases List.mem_cons.mp hmem with rfl | hmem'
    · have hstep : castStep cfg d (col, "numeric") =
          Except.error "Unable to parse string" := by
        unfold castStep toNumericCol
        rw [if_neg (by simp [hcol])]
        rw [if_pos (by simp)]
        rw [hcfg]
        rw [if_pos (by simp), if_pos hbad]
        rfl
      rw [show castFoldStep cfg (Except.ok d) (col, "numeric") =
          Except.error "Unable to parse string" by simp [castFoldStep, hstep],
        castFold_error]
      exact ⟨_, rfl⟩
    · have hkey : col ∈ rest.map (·.1) :=
        List.mem_map.mpr ⟨(col, "numeric"), hmem', rfl⟩
      have hp1 : p.1 ≠ col := by
        intro hh
        exact (List.nodup_cons.mp (by simpa using hnd)).1 (hh ▸ hkey)
      cases hs : castStep cfg d p with
      | error e =>
        rw [show castFoldStep cfg (Except.ok d) p = Except.error e by
          simp [castFoldStep, hs], castFold_error]
        exact ⟨e, rfl⟩
      | ok dd =>
        rw [show castFoldStep cfg (Except.ok d) p = Except.ok dd by
          simp [castFoldStep, hs]]
        have hfr := castStep_frame cfg d dd p hs
        have hcol' : dd.hasCol col = true := by
          rw [hasCol_iff_mem_colNames, hfr.1, ← hasCol_iff_mem_colNames]
          exact hcol
        have hcells : dd.getColD col = d.getColD col := by
          unfold DataFrame.getColD
          rw [hfr.2 col (fun hh => hp1 hh.symm)]
        exact castFold_raise_error cfg hcfg col rest dd
          (by simpa using (List.nodup_cons.mp (by simpa using hnd)).2)
          hmem' hcol' (by rwa [hcells])

theorem castStep_coerce_ok (cfg : TypeCastingConfig)
    (hcfg : cfg.errors = "coerce") (d : DataFrame) (p : String × String) :
    ∃ d', castStep cfg d p = Except.ok d' := by
  unfold castStep
  by_cases h0 : d.hasCol p.1
  · rw [if_neg (by simp [h0])]
    have hnum : toNumericCol cfg.errors (d.getColD p.1) =
        Except.ok ((d.getColD p.1).map (fun v => match coerceNum v with
          | some q => Val.num q
          | none => Val.na)) := by
      unfold toNumericCol
      rw [hcfg]
      rw [if_neg (by simp), if_neg (by simp)]
    have hdt : toDatetimeCol cfg.errors (d.getColD p.1) =
        Except.ok ((d.getColD p.1).map (fun v => match coerceDate v with
          | some t => Val.date t
          | none => Val.na)) := by
      unfold toDatetimeCol
      rw [hcfg]
      rw [if_neg (by simp), if_neg (by simp)]
    by_cases h1 : p.2 = "numeric"
    · rw [if_pos (by simp [h1]), hnum]
      exact ⟨_, rfl⟩
    · rw [if_neg (by simp [h1])]
      by_cases h2 : p.2 = "datetime"
      · rw [if_pos (by simp [h2]), hdt]
        exact ⟨_, rfl⟩
      · rw [if_neg (by simp [h2])]
        by_cases h3 : p.2 = "boolean"
        · rw [if_pos (by simp [h3])]
          exact ⟨_, rfl⟩
        · rw [if_neg (by simp [h3])]
          by_cases h4 : p.2 = "categorical"
          · rw [if_pos (by simp [h4])]
            exact ⟨_, rfl⟩
          · rw [if_neg (by simp [h4])]
            by_cases h5 : p.2 = "ordinal"
            · rw [if_pos (by simp [h5])]
              exact ⟨_, rfl⟩
            · rw [if_neg (by simp [h5])]
              exact ⟨_, rfl⟩
  · rw [if_pos (by simp [h0])]
    exact ⟨_, rfl⟩

theorem castFold_coerce_ok (cfg : TypeCastingConfig)
    (hcfg : cfg.errors = "coerce") :
    ∀ (dtypes : List (String × String)) (d : DataFrame),
      ∃ d', dtypes.foldl (castFoldStep cfg) (Except.ok d) = Except.ok d'
  | [], d => ⟨d, rfl⟩
  | p :: rest, d => by
    rcases castStep_coerce_ok cfg hcfg d p with ⟨dd, hdd⟩
    rw [List.foldl_cons,
      show castFoldStep cfg (Except.ok d) p = Except.ok dd by simp [castFoldStep, hdd]]
    exact castFold_coerce_ok cfg hcfg rest dd

/-- Under `coerce`, a successfully cast numeric column holds only
numbers and missing values. -/
theorem castFold_coerce_numeric (cfg : TypeCastingConfig)
    (hcfg : cfg.errors = "coerce") (col : String) :
    ∀ (dtypes : List (String × String)) (d d' : DataFrame),
      (dtypes.map (·.1)).Nodup → (col, "numeric") ∈ dtypes →
      d.hasCol col = true →
      dtypes.foldl (castFoldStep cfg) (Except.ok d) = Except.ok d' →
      ∀ v ∈ d'.getColD col, v = Val.na ∨ ∃ q, v = Val.num q
  | [], _, _, _, hmem, _, _ => absurd hmem (List.not_mem_nil _)
  | p :: rest, d, d', hnd, hmem, hcol, hfold => by
    rw [List.foldl_cons] at hfold
    rcases List.mem_cons.mp hmem with rfl | hmem'
    · have hrest_keys : col ∉ rest.map (·.1) :=
        (List.nodup_cons.mp (by simpa using hnd)).1
      have hstep : castStep cfg d (col, "numeric") =
          Except.ok (d.setCol col ((d.getColD col).map (fun v => match coerceNum v with
            | some q => Val.num q
            | none => Val.na))) := by
        unfold castStep toNumericCol
        rw [if_neg (by simp [hcol]), if_pos (by simp), hcfg]
        rw [if_neg (by simp), if_neg (by simp)]
        rfl
      rw [show castFoldStep cfg (Except.ok d) (col, "numeric") = Except.ok
          (d.setCol col ((d.getColD col).map (fun v => match coerceNum v with
            | some q => Val.num q
            | none => Val.na))) by simp [castFoldStep, hstep]] at hfold
      have hframe := castFold_frame cfg col rest _ d' hrest_keys hfold
      rw [DataFrame.getCol_setCol_self] at hframe
      intro v hv
      have hv' : v ∈ (d.getColD col).map (fun v => match coerceNum v with
          | some q => Val.num q
          | none => Val.na) := by
        unfold DataFrame.getColD at hv
        rw [hframe] at hv
        simpa using hv
      rcases List.mem_map.mp hv' with ⟨u, _, hu⟩
      cases hcu : coerceNum u with
      | none =>
        rw [hcu] at hu
        exact Or.inl hu.symm
      | some q =>
        rw [hcu] at hu
        exact Or.inr ⟨q, hu.symm⟩
    · have hkey : col ∈ rest.map (·.1) :=
        List.mem_map.mpr ⟨(col, "numeric"), hmem', rfl⟩
      have hp1 : p.1 ≠ col := by
        intro hh
        exact (List.nodup_cons.mp (by simpa using hnd)).1 (hh ▸ hkey)
      rcases castStep_coerce_ok cfg hcfg d p with ⟨dd, hdd⟩
      rw [show castFoldStep cfg (Except.ok d) p = Except.ok dd by
        simp [castFoldStep, hdd]] at hfold
      have hfr := castStep_frame cfg d dd p hdd
      have hcol' : dd.hasCol col = true := by
        rw [hasCol_iff_mem_colNames, hfr.1, ← hasCol_iff_mem_colNames]
        exact hcol
      exact castFold_coerce_numeric cfg hcfg col rest dd d'
        (by simpa using (List.nodup_cons.mp (by simpa using hnd)).2)
        hmem' hcol' hfold

/-- **C5** (amended): under the `raise` policy an unparseable value in a
column cast to `numeric` aborts the whole cast with an exception (no
frame is returned); under `coerce` the cast always succeeds and the cast
numeric column contains only parsed numbers or missing values.  Boolean
columns never raise — unmapped tokens silently become missing (see the
counterexample), so the original claim's "any logical type" is too
strong. -/
theorem C5_cast_policies (tc : TypeCaster) (df : DataFrame)
    (dtypes : List (String × String)) (col : String)
    (hnd : (dtypes.map (·.1)).Nodup)
    (hmem : (col, "numeric") ∈ dtypes)
    (hcol : df.hasCol col = true) :
    (tc.config.errors = "raise" →
      ((df.getColD col).any (fun v => !v.isNa && (coerceNum v).isNone)) = true →
      ∃ e, tc.cast df dtypes = Except.error e) ∧
    (tc.config.errors = "coerce" →
      ∃ d', tc.cast df dtypes = Except.ok d' ∧
        ∀ v ∈ d'.getColD col, v = Val.na ∨ ∃ q, v = Val.num q) := by
  constructor
  · intro hr hbad
    exact castFold_raise_error tc.config hr col dtypes df hnd hmem hcol hbad
  · intro hc
    rcases castFold_coerce_ok tc.config hc dtypes df with ⟨d', hd'⟩
    exact ⟨d', hd',
      castFold_coerce_numeric tc.config hc col dtypes df d' hnd hmem hcol hd'⟩

def c5Df : DataFrame := ⟨[0], [("b", [.str "xyz"])]⟩

/-- **C5** counterexample: the boolean column `["xyz"]` holds a value
that cannot be parsed as a boolean, yet under the `raise` policy
`cast()` does not raise — the unmapped token silently becomes missing. -/
theorem C5_counterexample :
    (boolMapTokens.lookup (lowerChars (trimChars "xyz".toList))).isNone = true ∧
    (TypeCaster.cast ⟨{ errors := "raise" }⟩ c5Df [("b", "boolean")]).toOption =
      some ⟨[0], [("b", [.na])]⟩ := by
  decide

def c5wDf : DataFrame := ⟨[0, 1], [("x", [.str "abc", .num 2])]⟩

/-- **C5** witness: the raise half applied to a numeric column holding
the unparseable string `"abc"`. -/
theorem C5_cast_policies_witness :
    ((c5wDf.getColD "x").any (fun v => !v.isNa && (coerceNum v).isNone)) = true ∧
    ∃ e, TypeCaster.cast ⟨{ errors := "raise" }⟩ c5wDf [("x", "numeric")] =
      Except.error e :=
  ⟨by decide,
    (C5_cast_policies ⟨{ errors := "raise" }⟩ c5wDf [("x", "numeric")] "x"
      (by decide) (by decide) (by decide)).1 rfl (by decide)⟩

/-! ### OutlierDetector (`cleaning/outliers.py`) -/

structure OutlierResult where
  column : String
  method : String
  indices : List ℕ
deriving Repr, DecidableEq

structure OutlierConfig where
  method : String := "iqr"
  iqr_multiplier : ℚ := 3/2
  z_threshold : ℚ := 3
  mark_only : Bool := true
deriving Repr, DecidableEq

structure OutlierDetector where
  config : OutlierConfig := {}

/-- Sample variance (`ddof = 1`); NaN (`none`) for fewer than 2 values. -/
def varQ (l : List ℚ) : Option ℚ :=
  if l.length ≤ 1 then none
  else
    some (((l.map (fun x => (x - l.sum / (l.length : ℚ)) ^ 2)).sum) /
      ((l.length : ℚ) - 1))

/-- `Series.std()`; `Rat.sqrt` approximates the irrational square root —
only the `iqr` method is the subject of a proved claim. -/
def stdQ (l : List ℚ) : Option ℚ := (varQ l).map Rat.sqrt

/-- The `iqr` outlier mask on one cell of the full column: strictly
outside the band; missing cells are never flagged (`NaN < x` is false). -/
def isOutlierIqr (lower upper : ℚ) : Val → Bool
  | .num q => decide (q < lower) || decide (upper < q)
  | _ => false

/-- The `zscore` mask on one cell. -/
def isOutlierZ (mean sd thr : ℚ) : Val → Bool
  | .num q => decide (thr < |(q - mean) / sd|)
  | _ => false

/-- `df.index[mask].tolist()`: the labels of the rows satisfying the
mask. -/
def maskIndices (index : List ℕ) (cells : List Val) (pred : Val → Bool) : List ℕ :=
  ((index.zip cells).filter (fun pr => pred pr.2)).map (·.1)

/-- One iteration of the `detect` loop for a column. -/
def OutlierDetector.detectCol (od : OutlierDetector) (df : DataFrame)
    (col : String) : List OutlierResult :=
  let s := nonNaNums (df.getColD col)
  if s.isEmpty then []
  else if od.config.method == "iqr" then
    let q1 := quantileQ s (1/4)
    let q3 := quantileQ s (3/4)
    let iqr := q3 - q1
    let lower := q1 - od.config.iqr_multiplier * iqr
    let upper := q3 + od.config.iqr_multiplier * iqr
    let idx := maskIndices df.index (df.getColD col) (isOutlierIqr lower upper)
    if idx.isEmpty then [] else [⟨col, "iqr", idx⟩]
  else
    match stdQ s with
    | none => []
    | some sd =>
      if sd == 0 then []
      else
        let idx := maskIndices df.index (df.getColD col)
          (isOutlierZ (s.sum / (s.length : ℚ)) sd od.config.z_threshold)
        if idx.isEmpty then [] else [⟨col, "zscore", idx⟩]

/-- `OutlierDetector.detect`. -/
def OutlierDetector.detect (od : OutlierDetector) (df : DataFrame)
    (num_cols : List String) : List OutlierResult :=
  num_cols.flatMap (od.detectCol df)

def flagName (r : OutlierResult) : String :=
  r.column ++ "_is_outlier_" ++ r.method

/-- The flag column built by `result_df[flag] = False;
result_df.loc[r.indices, flag] = True`: true exactly at the rows whose
label is among the detected indices. -/
def markFlagCol (index : List ℕ) (indices : List ℕ) : List Val :=
  index.map (fun ℓ => Val.bool (decide (ℓ ∈ indices)))

/-- `OutlierDetector.mark_outliers`: adds one boolean flag column per
detection result. -/
def OutlierDetector.mark_outliers (od : OutlierDetector) (df : DataFrame)
    (num_cols : List String) : DataFrame :=
  (od.detect df num_cols).foldl
    (fun acc r => acc.setCol (flagName r) (markFlagCol acc.index r.indices)) df

theorem detectCol_key (od : OutlierDetector) (df : DataFrame) (col : String)
    (r : OutlierResult) (hr : r ∈ od.detectCol df col) :
    r.column = col ∧ r.indices ≠ [] ∧ ∀ ℓ ∈ r.indices, ℓ ∈ df.index := by
  unfold OutlierDetector.detectCol at hr
  have hmask : ∀ (pred : Val → Bool) (ℓ : ℕ),
      ℓ ∈ maskIndices df.index (df.getColD col) pred → ℓ ∈ df.index := by
    intro pred ℓ hℓ
    unfold maskIndices at hℓ
    rcases List.mem_map.mp hℓ with ⟨pr, hpr, hpr1⟩
    have hz := (List.mem_filter.mp hpr).1
    have := List.mem_zip hz
    rw [← hpr1]
    exact this.1
  dsimp only at hr
  repeat' split at hr
  all_goals first
    | exact absurd hr (List.not_mem_nil r)
    | (rw [List.mem_singleton] at hr
       subst hr
       rename_i hne
       exact ⟨rfl, by simpa [List.isEmpty_iff] using hne,
         fun ℓ hℓ => hmask _ ℓ hℓ⟩)

theorem detect_mem_column (od : OutlierDetector) (df : DataFrame)
    (num_cols : List String) (r : OutlierResult)
    (hr : r ∈ od.detect df num_cols) : r.column ∈ num_cols := by
  unfold OutlierDetector.detect at hr
  rcases List.mem_flatMap.mp hr with ⟨c, hc, hrc⟩
  rw [(detectCol_key od df c r hrc).1]
  exact hc

theorem detectCol_cases (od : OutlierDetector) (df : DataFrame) (col : String) :
    od.detectCol df col = [] ∨ ∃ r, od.detectCol df col = [r] := by
  unfold OutlierDetector.detectCol
  dsimp only
  repeat' split
  all_goals first
    | (left; rfl)
    | (right; exact ⟨_, rfl⟩)

theorem length_le_one_nodup {α : Type} : ∀ l : List α, l.length ≤ 1 → l.Nodup
  | [], _ => List.Pairwise.nil
  | [a], _ => List.nodup_singleton a
  | _ :: _ :: _, h => by simp at h

theorem detect_columns_nodup (od : OutlierDetector) (df : DataFrame) :
    ∀ num_cols : List String, num_cols.Nodup →
      ((od.detect df num_cols).map (·.column)).Nodup
  | [], _ => List.Pairwise.nil
  | c :: rest, hnd => by
    unfold OutlierDetector.detect
    rw [List.flatMap_cons, List.map_append]
    apply List.Nodup.append
    · apply length_le_one_nodup
      rcases detectCol_cases od df c with h | ⟨r, h⟩ <;> simp [h]
    · have hrec := detect_columns_nodup od df rest (List.nodup_cons.mp hnd).2
      unfold OutlierDetector.detect at hrec
      exact hrec
    · intro a ha hb
      rcases List.mem_map.mp ha with ⟨r, hr, hra⟩
      rcases List.mem_map.mp hb with ⟨r', hr', hrb⟩
      have h1 : a = c := by rw [← hra]; exact (detectCol_key od df c r hr).1
      rcases List.mem_flatMap.mp hr' with ⟨c', hc', hrc'⟩
      have h2 : a = c' := by rw [← hrb]; exact (detectCol_key od df c' r' hrc').1
      apply (List.nodup_cons.mp hnd).1
      have hcc : c = c' := by rw [← h1, h2]
      rw [hcc]
      exact hc'

theorem detectCol_method_iqr (od : OutlierDetector) (df : DataFrame)
    (col : String) (r : OutlierResult) (hm : od.config.method = "iqr")
    (hr : r ∈ od.detectCol df col) : r.method = "iqr" := by
  unfold OutlierDetector.detectCol at hr
  dsimp only at hr
  repeat' split at hr
  all_goals first
    | exact absurd hr (List.not_mem_nil r)
    | (rw [List.mem_singleton] at hr; subst hr; rfl)
    | simp_all [hm]

theorem append_suffix_injective (s : String) :
    Function.Injective (fun c : String => c ++ s) := by
  intro a b h
  have hd : a.data ++ s.data = b.data ++ s.data := by
    have := congrArg String.data h
    simpa [String.data_append] using this
  exact String.ext (List.append_cancel_right hd)

theorem detect_flagNames_nodup (od : OutlierDetector) (df : DataFrame)
    (num_cols : List String) (hm : od.config.method = "iqr")
    (hnd : num_cols.Nodup) :
    ((od.detect df num_cols).map flagName).Nodup := by
  have hcols := detect_columns_nodup od df num_cols hnd
  have hmap : (od.detect df num_cols).map flagName =
      ((od.detect df num_cols).map (·.column)).map
        (fun c => c ++ "_is_outlier_iqr") := by
    rw [List.map_map]
    apply List.map_congr_left
    intro r hr
    unfold OutlierDetector.detect at hr
    rcases List.mem_flatMap.mp hr with ⟨c, _, hrc⟩
    show flagName r = r.column ++ "_is_outlier_iqr"
    unfold flagName
    rw [detectCol_method_iqr od df c r hm hrc, String.append_assoc,
      show "_is_outlier_" ++ "iqr" = "_is_outlier_iqr" by decide]
  rw [hmap]
  exact hcols.map (append_suffix_injective "_is_outlier_iqr")

theorem markFold_index :
    ∀ (rs : List OutlierResult) (acc : DataFrame),
      (rs.foldl (fun a r => a.setCol (flagName r) (markFlagCol a.index r.indices))
        acc).index = acc.index
  | [], _ => rfl
  | r0 :: rest, acc => by
    rw [List.foldl_cons, markFold_index rest _, DataFrame.setCol_index]

theorem markFold_getCol_not_mem :
    ∀ (rs : List OutlierResult) (acc : DataFrame) (c : String),
      c ∉ rs.map flagName →
      (rs.foldl (fun a r => a.setCol (flagName r) (markFlagCol a.index r.indices))
        acc).getCol c = acc.getCol c
  | [], _, _, _ => rfl
  | r0 :: rest, acc, c, h => by
    have h1 : c ≠ flagName r0 := fun hh =>
      h (by rw [List.map_cons]; exact hh ▸ List.mem_cons_self _ _)
    have h2 : c ∉ rest.map flagName := fun hh =>
      h (by rw [List.map_cons]; exact List.mem_cons_of_mem _ hh)
    rw [List.foldl_cons, markFold_getCol_not_mem rest _ c h2,
      DataFrame.getCol_setCol_other _ _ _ _ h1]

theorem markFold_getCol_mem :
    ∀ (rs : List OutlierResult) (acc : DataFrame) (r : OutlierResult),
      (rs.map flagName).Nodup → r ∈ rs →
      (rs.foldl (fun a r => a.setCol (flagName r) (markFlagCol a.index r.indices))
        acc).getCol (flagName r) = some (markFlagCol acc.index r.indices)
  | [], _, r, _, hmem => absurd hmem (List.not_mem_nil r)
  | r0 :: rest, acc, r, hnd, hmem => by
    rw [List.foldl_cons]
    rcases List.mem_cons.mp hmem with rfl | hmem'
    · have hni : flagName r ∉ rest.map flagName :=
        (List.nodup_cons.mp (by simpa using hnd)).1
      rw [markFold_getCol_not_mem rest _ _ hni, DataFrame.getCol_setCol_self]
    · rw [markFold_getCol_mem rest _ r
        (by simpa using (List.nodup_cons.mp (by simpa using hnd)).2) hmem',
        DataFrame.setCol_index]

/-- **C6**: with the `iqr` method, for every detection result the flag
column added by `mark_outliers()` is true exactly at the rows whose
label is in the result's index list (which is non-empty and drawn from
the frame's index), and `mark_outliers` leaves every original column
unchanged — detection is non-destructive. -/
theorem C6_detect_mark_roundtrip (od : OutlierDetector) (df : DataFrame)
    (num_cols : List String)
    (hm : od.config.method = "iqr")
    (hnd : num_cols.Nodup)
    (hfresh : ∀ r ∈ od.detect df num_cols, flagName r ∉ df.colNames) :
    (∀ r ∈ od.detect df num_cols,
      (od.mark_outliers df num_cols).getCol (flagName r) =
        some (df.index.map (fun ℓ => Val.bool (decide (ℓ ∈ r.indices)))) ∧
      r.indices ≠ [] ∧ (∀ ℓ ∈ r.indices, ℓ ∈ df.index)) ∧
    (∀ c ∈ df.colNames, (od.mark_outliers df num_cols).getCol c = df.getCol c) := by
  constructor
  · intro r hr
    have hflag := markFold_getCol_mem (od.detect df num_cols) df r
      (detect_flagNames_nodup od df num_cols hm hnd) hr
    have hkey : r.indices ≠ [] ∧ ∀ ℓ ∈ r.indices, ℓ ∈ df.index := by
      unfold OutlierDetector.detect at hr
      rcases List.mem_flatMap.mp hr with ⟨c, _, hrc⟩
      exact ⟨(detectCol_key od df c r hrc).2.1, (detectCol_key od df c r hrc).2.2⟩
    exact ⟨hflag, hkey.1, hkey.2⟩
  · intro c hc
    apply markFold_getCol_not_mem
    intro hcm
    rcases List.mem_map.mp hcm with ⟨r, hr, hrc⟩
    exact hfresh r hr (hrc ▸ hc)

def c6Df : DataFrame :=
  ⟨[0, 1, 2, 3, 4], [("x", [.num 0, .num 0, .num 0, .num 0, .num 100])]⟩

/-- **C6** witness: the round-trip applied to a column with a single
outlier, with the freshness hypothesis discharged by a length count. -/
theorem C6_detect_mark_roundtrip_witness :
    (({} : OutlierConfig).method = "iqr") ∧
    ((∀ r ∈ OutlierDetector.detect ⟨{}⟩ c6Df ["x"],
      (OutlierDetector.mark_outliers ⟨{}⟩ c6Df ["x"]).getCol (flagName r) =
        some (c6Df.index.map (fun ℓ => Val.bool (decide (ℓ ∈ r.indices)))) ∧
      r.indices ≠ [] ∧ (∀ ℓ ∈ r.indices, ℓ ∈ c6Df.index)) ∧
    (∀ c ∈ c6Df.colNames,
      (OutlierDetector.mark_outliers ⟨{}⟩ c6Df ["x"]).getCol c = c6Df.getCol c)) :=
  ⟨rfl,
    C6_detect_mark_roundtrip ⟨{}⟩ c6Df ["x"] rfl (by decide)
      (by
        intro r _ hmem
        have h1 : flagName r ∈ ["x"] := by
          simpa [c6Df, DataFrame.colNames] using hmem
        rw [List.mem_singleton] at h1
        have h2 : (flagName r).length = "x".length := by rw [h1]
        unfold flagName at h2
        rw [String.length_append, String.length_append] at h2
        have h3 : "_is_outlier_".length = 12 := by decide
        have h4 : "x".length = 1 := by decide
        omega)⟩

/-! ### FeatureEngineer (`cleaning/feature_engineering.py`) -/

structure ArithmeticFeatureDef where
  name : String
  left_col : String
  right_col : String
  op : String
deriving Repr, DecidableEq

structure AggregationFeatureDef where
  name : String
  group_col : String
  target_col : String
  func : String
deriving Repr, DecidableEq

structure FeatureEngineeringConfig where
  arithmetic_features : List ArithmeticFeatureDef := []
  aggregation_features : List AggregationFeatureDef := []
deriving Repr, DecidableEq

structure FeatureEngineer where
  config : FeatureEngineeringConfig := {}

/-- One cell of `left op right` for `add`/`sub`/`mul`: float arithmetic
with NaN propagation.  (Non-numeric operands — e.g. string columns,
where pandas `+` concatenates — are modelled as missing; no claim
exercises them.) -/
def arithCell (op : String) (pr : Val × Val) : Val :=
  match pr.1.toNum?, pr.2.toNum? with
  | some a, some b =>
    if op == "add" then .num (a + b)
    else if op == "sub" then .num (a - b)
    else .num (a * b)
  | _, _ => .na

/-- One cell of `left / right.replace({0: pd.NA})`: a zero divisor is
first turned into missing, so the quotient is missing rather than
infinite; missing operands propagate. -/
def divCell (pr : Val × Val) : Val :=
  match pr.1.toNum?, pr.2.toNum? with
  | some a, some b => if b == 0 then .na else .num (a / b)
  | _, _ => .na

/-- The new column of an arithmetic feature; `none` when `op` is not one
of the four operators (the source's `if/elif` chain then assigns
nothing). -/
def arithColOpt (op : String) (ls rs : List Val) : Option (List Val) :=
  if op == "add" || op == "sub" || op == "mul" then
    some ((ls.zip rs).map (arithCell op))
  else if op == "div" then
    some ((ls.zip rs).map divCell)
  else none

/-- One iteration of the arithmetic-features loop: skips silently when a
source column is absent. -/
def applyArithFeature (df : DataFrame) (f : ArithmeticFeatureDef) : DataFrame :=
  if !df.hasCol f.left_col || !df.hasCol f.right_col then df
  else
    match arithColOpt f.op (df.getColD f.left_col) (df.getColD f.right_col) with
    | some vs => df.setCol f.name vs
    | none => df

/-- `grouped = result.groupby(group_col)[target_col].agg(func)` for one
group's non-missing target values; `none` models NaN. -/
def aggFold (func : String) (vals : List ℚ) : Option ℚ :=
  if func == "mean" then meanQ vals
  else if func == "median" then medianQ vals
  else if func == "sum" then some vals.sum
  else if func == "count" then some ((vals.length : ℚ))
  else if func == "std" then stdQ vals
  else none

/-- The merged aggregate column of the left join: each row receives its
group's aggregate of the target column; rows with a missing group key
are dropped by `groupby` and left-joined back as NaN. -/
def aggCol (groupCells targetCells : List Val) (func : String) : List Val :=
  (List.range groupCells.length).map (fun i =>
    let g := groupCells.getD i .na
    if g.isNa then .na
    else
      match aggFold func (nonNaNums ((List.range groupCells.length).filterMap
        (fun j => if groupCells.getD j .na == g then some (targetCells.getD j .na)
          else none))) with
      | some q => .num q
      | none => .na)

/-- One iteration of the aggregation-features loop (the `merge` suffixing
of an already-existing feature name is not modelled; the claims keep
feature names fresh). -/
def applyAggFeature (df : DataFrame) (g : AggregationFeatureDef) : DataFrame :=
  if !df.hasCol g.group_col || !df.hasCol g.target_col then df
  else df.setCol g.name (aggCol (df.getColD g.group_col) (df.getColD g.target_col) g.func)

/-- `FeatureEngineer.apply`: arithmetic features first, then aggregation
features (`dtypes` is accepted and unused, as in the source). -/
def FeatureEngineer.apply (fe : FeatureEngineer) (df : DataFrame)
    (dtypes : List (String × String)) : DataFrame :=
  (fe.config.aggregation_features).foldl applyAggFeature
    ((fe.config.arithmetic_features).foldl applyArithFeature df)

theorem aggFold_getCol_fresh :
    ∀ (gs : List AggregationFeatureDef) (acc : DataFrame) (c : String),
      (∀ g ∈ gs, g.name ≠ c) →
      (gs.foldl applyAggFeature acc).getCol c = acc.getCol c
  | [], _, _, _ => rfl
  | g0 :: rest, acc, c, h => by
    rw [List.foldl_cons,
      aggFold_getCol_fresh rest _ c (fun g hg => h g (List.mem_cons_of_mem g0 hg))]
    unfold applyAggFeature
    by_cases h0 : (!acc.hasCol g0.group_col || !acc.hasCol g0.target_col) = true
    · rw [if_pos h0]
    · rw [if_neg h0]
      exact DataFrame.getCol_setCol_other acc g0.name c _
        (fun hh => h g0 (List.mem_cons_self g0 rest) hh.symm)

/-- **C7**: for a `div` arithmetic feature, a zero divisor yields a
missing cell in the new column (never infinity, and `apply` is total so
nothing is raised), while a row with numeric operands and a nonzero
divisor receives the exact quotient. -/
theorem C7_div_zero_missing (fe : FeatureEngineer) (df : DataFrame)
    (dtypes : List (String × String)) (f : ArithmeticFeatureDef)
    (hf : fe.config.arithmetic_features = [f])
    (hop : f.op = "div")
    (hagg : ∀ g ∈ fe.config.aggregation_features, g.name ≠ f.name)
    (hl : df.hasCol f.left_col = true) (hr : df.hasCol f.right_col = true)
    (hlen : (df.getColD f.left_col).length = (df.getColD f.right_col).length)
    (i : ℕ) (hi : i < (df.getColD f.right_col).length) :
    ((df.getColD f.right_col).getD i Val.na = Val.num 0 →
      ((fe.apply df dtypes).getColD f.name).getD i Val.na = Val.na) ∧
    (∀ a b : ℚ, b ≠ 0 →
      (df.getColD f.left_col).getD i Val.na = Val.num a →
      (df.getColD f.right_col).getD i Val.na = Val.num b →
      ((fe.apply df dtypes).getColD f.name).getD i Val.na = Val.num (a / b)) := by
  have hil : i < (df.getColD f.left_col).length := by rw [hlen]; exact hi
  have hdiv : arithColOpt f.op (df.getColD f.left_col) (df.getColD f.right_col) =
      some (((df.getColD f.left_col).zip (df.getColD f.right_col)).map divCell) := by
    unfold arithColOpt
    rw [hop]
    rfl
  have hstep : fe.apply df dtypes =
      (fe.config.aggregation_features).foldl applyAggFeature
        (df.setCol f.name
          (((df.getColD f.left_col).zip (df.getColD f.right_col)).map divCell)) := by
    unfold FeatureEngineer.apply
    rw [hf]
    rw [List.foldl_cons, List.foldl_nil]
    unfold applyArithFeature
    rw [if_neg (by simp [hl, hr]), hdiv]
  have hcol : (fe.apply df dtypes).getCol f.name =
      some (((df.getColD f.left_col).zip (df.getColD f.right_col)).map divCell) := by
    rw [hstep, aggFold_getCol_fresh _ _ _ hagg, DataFrame.getCol_setCol_self]
  have hcolD : (fe.apply df dtypes).getColD f.name =
      ((df.getColD f.left_col).zip (df.getColD f.right_col)).map divCell := by
    unfold DataFrame.getColD
    rw [hcol]
    rfl
  have hzlen : i < (((df.getColD f.left_col).zip (df.getColD f.right_col)).map divCell).length := by
    rw [List.length_map, List.length_zip]
    omega
  have hcell : ((fe.apply df dtypes).getColD f.name).getD i Val.na =
      divCell ((df.getColD f.left_col).getD i Val.na,
        (df.getColD f.right_col).getD i Val.na) := by
    rw [hcolD, List.getD_eq_getElem _ _ hzlen, List.getElem_map, List.getElem_zip,
      List.getD_eq_getElem _ _ hil, List.getD_eq_getElem _ _ hi]
  constructor
  · intro hz
    rw [hcell, hz]
    cases hlv : (df.getColD f.left_col).getD i Val.na <;>
      simp [divCell, Val.toNum?]
  · intro a b hb hla hrb
    rw [hcell, hla, hrb]
    simp [divCell, Val.toNum?, hb]

def c7Df : DataFrame :=
  ⟨[0, 1], [("l", [.num 6, .num 8]), ("r", [.num 0, .num 2])]⟩

def c7Feat : ArithmeticFeatureDef := ⟨"q", "l", "r", "div"⟩

/-- **C7** witness: the zero-divisor row of a concrete frame gets a
missing quotient cell. -/
theorem C7_div_zero_missing_witness :
    (c7Df.getColD "r").getD 0 Val.na = Val.num 0 ∧
    ((FeatureEngineer.apply ⟨{ arithmetic_features := [c7Feat] }⟩ c7Df []).getColD
      "q").getD 0 Val.na = Val.na :=
  ⟨by decide,
    (C7_div_zero_missing ⟨{ arithmetic_features := [c7Feat] }⟩ c7Df [] c7Feat
      rfl rfl (by simp) (by decide) (by decide) (by decide) 0 (by decide)).1
      (by decide)⟩

/-! ### CategoricalCleaner (`cleaning/categorical_cleaning.py`) -/

structure CategoricalCleaningConfig where
  normalize_case : Bool := true
  strip_whitespace : Bool := true
  known_mappings : List (String × List (String × String)) := []
  enable_fuzzy_merge_suggestions : Bool := false
  fuzzy_threshold : ℚ := 85/100
deriving Repr, DecidableEq

structure CategoricalCleaner where
  config : CategoricalCleaningConfig := {}

/-- `str.title()`: upper-case the first character of each alphabetic run,
lower-case the rest. -/
def titleChars : List Char → Bool → List Char
  | [], _ => []
  | c :: rest, prevAlpha =>
    (if c.isAlpha && !prevAlpha then c.toUpper
      else if c.isAlpha then c.toLower else c) :: titleChars rest c.isAlpha

/-- One cell of the categorical cleaning chain:
`.astype("string")` (missing propagates), optional strip, optional
title-casing, then the caller-supplied label remapping. -/
def catCleanCell (cfg : CategoricalCleaningConfig)
    (mapping : List (String × String)) : Val → Val
  | .na => .na
  | v =>
    let s0 := v.pyStr
    let s1 := if cfg.strip_whitespace then String.mk (trimChars s0.toList) else s0
    let s2 := if cfg.normalize_case then String.mk (titleChars s1.toList false) else s1
    match mapping.lookup s2 with
    | some t => .str t
    | none => .str s2

/-- `CategoricalCleaner.clean`: rewrite every categorical column. -/
def CategoricalCleaner.clean (cc : CategoricalCleaner) (df : DataFrame)
    (dtypes : List (String × String)) : DataFrame :=
  (catCols dtypes).foldl
    (fun acc col =>
      acc.setCol col ((acc.getColD col).map
        (catCleanCell cc.config ((cc.config.known_mappings.lookup col).getD []))))
    df

/-! ### Well-formedness preservation of the pipeline stages -/

theorem applyMask_length_congr {α β : Type} :
    ∀ (ms : List Bool) (l1 : List α) (l2 : List β), l1.length = l2.length →
      (applyMask ms l1).length = (applyMask ms l2).length
  | [], _, _, _ => by simp [applyMask]
  | true :: ms, a :: l1, b :: l2, h =>
    congrArg Nat.succ
      (applyMask_length_congr ms l1 l2 (Nat.succ_injective h))
  | false :: ms, _ :: l1, _ :: l2, h =>
    applyMask_length_congr ms l1 l2 (Nat.succ_injective h)
  | true :: _, [], [], _ => rfl
  | false :: _, [], [], _ => rfl
  | _ :: _, [], _ :: _, h => by simp at h
  | _ :: _, _ :: _, [], h => by simp at h

theorem DataFrame.setCol_WF (df : DataFrame) (c : String) (vs : List Val)
    (hwf : df.WF) (hlen : vs.length = df.index.length) :
    (df.setCol c vs).WF := by
  unfold DataFrame.setCol
  by_cases h : df.hasCol c = true
  · rw [if_pos h]
    constructor
    · intro p hp
      rcases List.mem_map.mp hp with ⟨p0, hp0, hpe⟩
      by_cases hc : p0.1 = c
      · rw [← hpe, if_pos (by simp [hc])]
        exact hlen
      · rw [← hpe, if_neg (by simp [hc])]
        exact hwf.1 p0 hp0
    · have hnames : (DataFrame.mk df.index
          (df.cols.map (fun p => if p.1 == c then (c, vs) else p))).colNames =
          df.colNames := by
        unfold DataFrame.colNames
        rw [List.map_map]
        apply List.map_congr_left
        intro p _
        by_cases hc : p.1 = c
        · simp [hc]
        · simp [hc]
      rw [hnames]
      exact hwf.2
  · rw [if_neg h]
    constructor
    · intro p hp
      rcases List.mem_append.mp hp with hp1 | hp2
      · exact hwf.1 p hp1
      · rw [List.mem_singleton] at hp2
        rw [hp2]
        exact hlen
    · have hnotin : c ∉ df.colNames := by
        intro hc
        exact h ((hasCol_iff_mem_colNames df c).mpr hc)
      have hnames : (DataFrame.mk df.index (df.cols ++ [(c, vs)])).colNames =
          df.colNames ++ [c] := by
        unfold DataFrame.colNames
        rw [List.map_append]
        rfl
      rw [hnames]
      simp only [List.nodup_append, List.nodup_singleton]
      exact ⟨hwf.2, by simp, by
        intro a ha hb
        rw [List.mem_singleton] at hb
        exact hnotin (hb ▸ ha)⟩

theorem DataFrame.setCol_colNames_grow (df : DataFrame) (c : String) (vs : List Val) :
    (df.setCol c vs).colNames = df.colNames ∨
      (df.setCol c vs).colNames = df.colNames ++ [c] := by
  unfold DataFrame.setCol
  by_cases h : df.hasCol c = true
  · left
    rw [if_pos h]
    unfold DataFrame.colNames
    rw [List.map_map]
    apply List.map_congr_left
    intro p _
    by_cases hc : p.1 = c
    · simp [hc]
    · simp [hc]
  · right
    rw [if_neg h]
    unfold DataFrame.colNames
    rw [List.map_append]
    rfl

theorem DataFrame.dropnaSubset_WF (df : DataFrame) (c : String) (hwf : df.WF) :
    (df.dropnaSubset c).WF ∧ (df.dropnaSubset c).colNames = df.colNames := by
  have hnames : (df.dropnaSubset c).colNames = df.colNames := by
    unfold DataFrame.dropnaSubset DataFrame.colNames
    dsimp only
    rw [List.map_map]
    apply List.map_congr_left
    intro p _
    rfl
  refine ⟨⟨?_, ?_⟩, hnames⟩
  · intro p hp
    have hp' : p ∈ df.cols.map
        (fun p => (p.1, applyMask (keepMask (df.getColD c)) p.2)) := hp
    rcases List.mem_map.mp hp' with ⟨p0, hp0, hpe⟩
    show p.2.length = (applyMask (keepMask (df.getColD c)) df.index).length
    rw [← hpe]
    exact applyMask_length_congr _ _ _ (hwf.1 p0 hp0)
  · rw [hnames]
    exact hwf.2

theorem fillna_length (cells : List Val) (v : Val) :
    (fillna cells v).length = cells.length := List.length_map _ _

theorem fillnaWith_length (cells : List Val) (o : Option Val) :
    (fillnaWith cells o).length = cells.length := by
  cases o <;> simp [fillnaWith, fillna]

theorem ffillAux_length :
    ∀ (cells : List Val) (last : Option Val),
      (ffillAux cells last).length = cells.length
  | [], _ => rfl
  | c :: rest, last => by
    unfold ffillAux
    split <;> simp [ffillAux_length rest]

theorem ffill_length (cells : List Val) : (ffill cells).length = cells.length :=
  ffillAux_length cells none

theorem bfill_length (cells : List Val) : (bfill cells).length = cells.length := by
  unfold bfill
  rw [List.length_reverse, ffill_length, List.length_reverse]

theorem byGroupCol_length (groupCells cells : List Val) (t : String) :
    (byGroupCol groupCells cells t).length = cells.length := by
  unfold byGroupCol
  rw [List.length_map, List.length_range]

theorem nonDropCells_length (df : DataFrame) (dtypes : List (String × String))
    (strategies : List (String × MissingStrategyConfig)) (col : String)
    (vs : List Val) (h : nonDropCells df dtypes strategies col = some vs) :
    vs.length = (df.getColD col).length := by
  unfold nonDropCells at h
  dsimp only at h
  repeat' split at h
  all_goals
    first
    | (injection h with h
       rw [← h]
       first
         | exact fillnaWith_length _ _
         | exact ffill_length _
         | exact bfill_length _
         | exact byGroupCol_length _ _ _)
    | (rcases Option.map_eq_some'.mp h with ⟨m, _, hm⟩
       rw [← hm]
       exact fillna_length _ _)

theorem hasCol_of_getColD_ne_nil (df : DataFrame) (col : String)
    (h : df.getColD col ≠ []) : df.hasCol col = true := by
  unfold DataFrame.getColD DataFrame.getCol at h
  cases hf : df.cols.find? (fun p => p.1 == col) with
  | none => rw [hf] at h; simp at h
  | some p =>
    have hm := List.mem_of_find?_eq_some hf
    have hp := List.find?_some hf
    exact List.any_eq_true.mpr ⟨p, hm, hp⟩

theorem applyStrategyCol_WF (dtypes : List (String × String))
    (strategies : List (String × MissingStrategyConfig))
    (df : DataFrame) (col : String) (hwf : df.WF) (hmem : col ∈ df.colNames) :
    (applyStrategyCol df dtypes strategies col).WF ∧
    (applyStrategyCol df dtypes strategies col).colNames = df.colNames := by
  unfold applyStrategyCol
  by_cases hd : (((strategies.lookup col).getD {}).strategy == "drop") = true
  · rw [if_pos hd]
    exact DataFrame.dropnaSubset_WF df col hwf
  · rw [if_neg hd]
    cases hn : nonDropCells df dtypes strategies col with
    | none => exact ⟨hwf, rfl⟩
    | some vs =>
      have hlen : vs.length = df.index.length := by
        rw [nonDropCells_length df dtypes strategies col vs hn]
        exact getColD_length_of_WF df col hwf hmem
      exact ⟨DataFrame.setCol_WF df col vs hwf hlen,
        setCol_colNames_of_hasCol df col vs
          ((hasCol_iff_mem_colNames df col).mpr hmem)⟩

theorem mvh_apply_WF (df : DataFrame) (dtypes : List (String × String))
    (strategies : List (String × MissingStrategyConfig)) (hwf : df.WF) :
    (MissingValueHandler.apply df dtypes strategies).WF ∧
    (MissingValueHandler.apply df dtypes strategies).colNames = df.colNames := by
  unfold MissingValueHandler.apply
  have hgen : ∀ (cols : List String) (acc : DataFrame), acc.WF →
      acc.colNames = df.colNames → (∀ c ∈ cols, c ∈ df.colNames) →
      ((cols.foldl (fun a c => applyStrategyCol a dtypes strategies c) acc).WF ∧
        (cols.foldl (fun a c => applyStrategyCol a dtypes strategies c)
          acc).colNames = df.colNames) := by
    intro cols
    induction cols with
    | nil => exact fun acc h1 h2 _ => ⟨h1, h2⟩
    | cons c rest ih =>
      intro acc h1 h2 h3
      rw [List.foldl_cons]
      have hstep := applyStrategyCol_WF dtypes strategies acc c h1
        (by rw [h2]; exact h3 c (List.mem_cons_self _ _))
      exact ih _ hstep.1 (hstep.2.trans h2)
        (fun x hx => h3 x (List.mem_cons_of_mem _ hx))
  exact hgen df.colNames df hwf rfl (fun c hc => hc)

theorem cleanCol_WF (nc : NumericCleaner) (df : DataFrame) (col : String)
    (hwf : df.WF) :
    (nc.cleanCol df col).WF ∧ (nc.cleanCol df col).colNames = df.colNames ∧
    (nc.cleanCol df col).index = df.index := by
  unfold NumericCleaner.cleanCol
  dsimp only
  by_cases h0 : (nonNaNums (df.getColD col)).isEmpty = true
  · rw [if_pos h0]
    exact ⟨hwf, rfl, rfl⟩
  · rw [if_neg h0]
    by_cases h1 : nc.config.clip_extremes = true
    · rw [if_pos h1]
      have hne : df.getColD col ≠ [] := by
        intro hc
        rw [hc] at h0
        exact h0 (by simp [nonNaNums])
      have hhas := hasCol_of_getColD_ne_nil df col hne
      have hmem := (hasCol_iff_mem_colNames df col).mp hhas
      refine ⟨DataFrame.setCol_WF df col _ hwf ?_,
        setCol_colNames_of_hasCol df col _ hhas, DataFrame.setCol_index df col _⟩
      rw [List.length_map]
      exact getColD_length_of_WF df col hwf hmem
    · rw [if_neg h1]
      exact ⟨hwf, rfl, rfl⟩

theorem numericClean_WF (nc : NumericCleaner) (df : DataFrame)
    (dtypes : List (String × String)) (hwf : df.WF) :
    (nc.clean df dtypes).WF ∧ (nc.clean df dtypes).colNames = df.colNames ∧
    (nc.clean df dtypes).index = df.index := by
  unfold NumericCleaner.clean
  by_cases h : nc.config.enable_outlier_capping = true
  · rw [if_pos h]
    have hgen : ∀ (cols : List String) (acc : DataFrame), acc.WF →
        acc.colNames = df.colNames → acc.index = df.index →
        ((cols.foldl nc.cleanCol acc).WF ∧
          (cols.foldl nc.cleanCol acc).colNames = df.colNames ∧
          (cols.foldl nc.cleanCol acc).index = df.index) := by
      intro cols
      induction cols with
      | nil => exact fun acc h1 h2 h3 => ⟨h1, h2, h3⟩
      | cons c rest ih =>
        intro acc h1 h2 h3
        rw [List.foldl_cons]
        have hstep := cleanCol_WF nc acc c h1
        exact ih _ hstep.1 (hstep.2.1.trans h2) (hstep.2.2.trans h3)
    exact hgen (numericCols dtypes) df hwf rfl rfl
  · rw [if_neg h]
    exact ⟨hwf, rfl, rfl⟩

theorem catClean_WF (cc : CategoricalCleaner) (df : DataFrame)
    (dtypes : List (String × String)) (hwf : df.WF)
    (hcat : ∀ c ∈ catCols dtypes, c ∈ df.colNames) :
    (cc.clean df dtypes).WF ∧ (cc.clean df dtypes).colNames = df.colNames ∧
    (cc.clean df dtypes).index = df.index := by
  unfold CategoricalCleaner.clean
  have hgen : ∀ (cols : List String) (acc : DataFrame), acc.WF →
      acc.colNames = df.colNames → acc.index = df.index →
      (∀ c ∈ cols, c ∈ df.colNames) →
      ((cols.foldl (fun acc col => acc.setCol col ((acc.getColD col).map
          (catCleanCell cc.config
            ((cc.config.known_mappings.lookup col).getD [])))) acc).WF ∧
        (cols.foldl (fun acc col => acc.setCol col ((acc.getColD col).map
          (catCleanCell cc.config
            ((cc.config.known_mappings.lookup col).getD [])))) acc).colNames =
          df.colNames ∧
        (cols.foldl (fun acc col => acc.setCol col ((acc.getColD col).map
          (catCleanCell cc.config
            ((cc.config.known_mappings.lookup col).getD [])))) acc).index =
          df.index) := by
    intro cols
    induction cols with
    | nil => exact fun acc h1 h2 h3 _ => ⟨h1, h2, h3⟩
    | cons c rest ih =>
      intro acc h1 h2 h3 h4
      rw [List.foldl_cons]
      have hcm : c ∈ acc.colNames := by
        rw [h2]
        exact h4 c (List.mem_cons_self _ _)
      have hlen : ((acc.getColD c).map
          (catCleanCell cc.config
            ((cc.config.known_mappings.lookup c).getD []))).length =
          acc.index.length := by
        rw [List.length_map]
        exact getColD_length_of_WF acc c h1 hcm
      refine ih _ (DataFrame.setCol_WF acc c _ h1 hlen)
        ((setCol_colNames_of_hasCol acc c _
          ((hasCol_iff_mem_colNames acc c).mpr hcm)).trans h2)
        ((DataFrame.setCol_index acc c _).trans h3)
        (fun x hx => h4 x (List.mem_cons_of_mem _ hx))
  exact hgen (catCols dtypes) df hwf rfl rfl hcat

theorem applyArithFeature_WF (df : DataFrame) (f : ArithmeticFeatureDef)
    (hwf : df.WF) :
    (applyArithFeature df f).WF ∧ (applyArithFeature df f).index = df.index := by
  unfold applyArithFeature
  by_cases h0 : (!df.hasCol f.left_col || !df.hasCol f.right_col) = true
  · rw [if_pos h0]
    exact ⟨hwf, rfl⟩
  · rw [if_neg h0]
    simp only [Bool.or_eq_true, Bool.not_eq_true', not_or] at h0
    obtain ⟨hl', hr'⟩ := h0
    have hl : df.hasCol f.left_col = true := by simpa using hl'
    have hr : df.hasCol f.right_col = true := by simpa using hr'
    have hll := getColD_length_of_WF df f.left_col hwf
      ((hasCol_iff_mem_colNames df f.left_col).mp hl)
    have hrl := getColD_length_of_WF df f.right_col hwf
      ((hasCol_iff_mem_colNames df f.right_col).mp hr)
    cases hn : arithColOpt f.op (df.getColD f.left_col) (df.getColD f.right_col) with
    | none => exact ⟨hwf, rfl⟩
    | some vs =>
      have hvs : vs.length = df.index.length := by
        unfold arithColOpt at hn
        repeat' split at hn
        all_goals first
          | (injection hn with hn
             rw [← hn, List.length_map, List.length_zip, hll, hrl]
             exact Nat.min_self _)
          | exact Option.noConfusion hn
      exact ⟨DataFrame.setCol_WF df f.name vs hwf hvs,
        DataFrame.setCol_index df f.name vs⟩

theorem applyAggFeature_WF (df : DataFrame) (g : AggregationFeatureDef)
    (hwf : df.WF) :
    (applyAggFeature df g).WF ∧ (applyAggFeature df g).index = df.index := by
  unfold applyAggFeature
  by_cases h0 : (!df.hasCol g.group_col || !df.hasCol g.target_col) = true
  · rw [if_pos h0]
    exact ⟨hwf, rfl⟩
  · rw [if_neg h0]
    simp only [Bool.or_eq_true, Bool.not_eq_true', not_or] at h0
    have hg : df.hasCol g.group_col = true := by simpa using h0.1
    have hgl := getColD_length_of_WF df g.group_col hwf
      ((hasCol_iff_mem_colNames df g.group_col).mp hg)
    have hvs : (aggCol (df.getColD g.group_col) (df.getColD g.target_col)
        g.func).length = df.index.length := by
      unfold aggCol
      rw [List.length_map, List.length_range, hgl]
    exact ⟨DataFrame.setCol_WF df g.name _ hwf hvs,
      DataFrame.setCol_index df g.name _⟩

theorem featureApply_WF (fe : FeatureEngineer) (df : DataFrame)
    (dtypes : List (String × String)) (hwf : df.WF) :
    (fe.apply df dtypes).WF ∧ (fe.apply df dtypes).index = df.index := by
  unfold FeatureEngineer.apply
  have harith : ∀ (fs : List ArithmeticFeatureDef) (acc : DataFrame), acc.WF →
      acc.index = df.index →
      ((fs.foldl applyArithFeature acc).WF ∧
        (fs.foldl applyArithFeature acc).index = df.index) := by
    intro fs
    induction fs with
    | nil => exact fun acc h1 h2 => ⟨h1, h2⟩
    | cons f rest ih =>
      intro acc h1 h2
      rw [List.foldl_cons]
      have hstep := applyArithFeature_WF acc f h1
      exact ih _ hstep.1 (hstep.2.trans h2)
  have hagg : ∀ (gs : List AggregationFeatureDef) (acc : DataFrame), acc.WF →
      acc.index = df.index →
      ((gs.foldl applyAggFeature acc).WF ∧
        (gs.foldl applyAggFeature acc).index = df.index) := by
    intro gs
    induction gs with
    | nil => exact fun acc h1 h2 => ⟨h1, h2⟩
    | cons g rest ih =>
      intro acc h1 h2
      rw [List.foldl_cons]
      have hstep := applyAggFeature_WF acc g h1
      exact ih _ hstep.1 (hstep.2.trans h2)
  have h1 := harith fe.config.arithmetic_features df hwf rfl
  exact hagg fe.config.aggregation_features _ h1.1 h1.2

/-! ### Preprocessor (`cleaning/preprocessor.py`) -/

structure CleaningConfig where
  missing_strategies : List (String × MissingStrategyConfig) := []
  numeric_config : NumericCleaningConfig := {}
  categorical_config : CategoricalCleaningConfig := {}
  feature_config : FeatureEngineeringConfig := {}
deriving Repr, DecidableEq

structure CleaningReport where
  initial_shape : ℕ × ℕ
  final_shape : ℕ × ℕ
  applied_steps : List String
  validation_report : Option ValidationReport := none
  notes : List String := []
deriving Repr, DecidableEq

structure Preprocessor where
  config : CleaningConfig := {}

/-- `Preprocessor.clean`: the fixed five-stage pipeline — missing values,
numeric cleaning, categorical cleaning, feature engineering, validation —
each stage receiving the previous stage's output, with every stage name
recorded unconditionally and the shapes taken before and after. -/
def Preprocessor.clean (pp : Preprocessor) (df : DataFrame)
    (dtypes : List (String × String)) : DataFrame × CleaningReport :=
  let work1 := MissingValueHandler.apply df dtypes pp.config.missing_strategies
  let work2 := NumericCleaner.clean ⟨pp.config.numeric_config⟩ work1 dtypes
  let work3 := CategoricalCleaner.clean ⟨pp.config.categorical_config⟩ work2 dtypes
  let work4 := FeatureEngineer.apply ⟨pp.config.feature_config⟩ work3 dtypes
  (work4,
    { initial_shape := df.shape
      final_shape := work4.shape
      applied_steps := ["missing_values", "numeric_cleaning",
        "categorical_cleaning", "feature_engineering", "validation"]
      validation_report := some (DataValidator.validate {} work4 dtypes)
      notes := [] })

/-- **C8**: on an input that is empty after the drop-missing stage,
`Preprocessor.clean()` still returns a well-formed (zero-row) dataset
and a report (the embedding is a total function — nothing is raised),
with all five stage names recorded in order and the shapes taken before
and after the pipeline. -/
theorem C8_clean_empty_after_drop (pp : Preprocessor) (df : DataFrame)
    (dtypes : List (String × String)) (hwf : df.WF)
    (hcat : ∀ c ∈ catCols dtypes, c ∈ df.colNames)
    (hempty : (MissingValueHandler.apply df dtypes
      pp.config.missing_strategies).nRows = 0) :
    (pp.clean df dtypes).2.applied_steps =
      ["missing_values", "numeric_cleaning", "categorical_cleaning",
        "feature_engineering", "validation"] ∧
    (pp.clean df dtypes).2.initial_shape = df.shape ∧
    (pp.clean df dtypes).2.final_shape = (pp.clean df dtypes).1.shape ∧
    ((pp.clean df dtypes).2.validation_report).isSome = true ∧
    (pp.clean df dtypes).1.WF ∧
    (pp.clean df dtypes).1.nRows = 0 := by
  have h1 := mvh_apply_WF df dtypes pp.config.missing_strategies hwf
  have h2 := numericClean_WF ⟨pp.config.numeric_config⟩
    (MissingValueHandler.apply df dtypes pp.config.missing_strategies) dtypes h1.1
  have hcat2 : ∀ c ∈ catCols dtypes,
      c ∈ (NumericCleaner.clean ⟨pp.config.numeric_config⟩
        (MissingValueHandler.apply df dtypes pp.config.missing_strategies)
        dtypes).colNames := by
    intro c hc
    rw [h2.2.1, h1.2]
    exact hcat c hc
  have h3 := catClean_WF ⟨pp.config.categorical_config⟩
    (NumericCleaner.clean ⟨pp.config.numeric_config⟩
      (MissingValueHandler.apply df dtypes pp.config.missing_strategies) dtypes)
    dtypes h2.1 hcat2
  have h4 := featureApply_WF ⟨pp.config.feature_config⟩
    (CategoricalCleaner.clean ⟨pp.config.categorical_config⟩
      (NumericCleaner.clean ⟨pp.config.numeric_config⟩
        (MissingValueHandler.apply df dtypes pp.config.missing_strategies) dtypes)
      dtypes) dtypes h3.1
  refine ⟨rfl, rfl, rfl, rfl, h4.1, ?_⟩
  show (FeatureEngineer.apply ⟨pp.config.feature_config⟩
    (CategoricalCleaner.clean ⟨pp.config.categorical_config⟩
      (NumericCleaner.clean ⟨pp.config.numeric_config⟩
        (MissingValueHandler.apply df dtypes pp.config.missing_strategies) dtypes)
      dtypes) dtypes).nRows = 0
  unfold DataFrame.nRows
  rw [h4.2, h3.2.2, h2.2.2]
  exact hempty

def c8Df : DataFrame := ⟨[0], [("x", [.na])]⟩

def c8Pp : Preprocessor :=
  ⟨{ missing_strategies := [("x", { strategy := "drop" })] }⟩

/-- **C8** witness: a one-row all-missing frame whose drop strategy
leaves zero rows. -/
theorem C8_clean_empty_after_drop_witness :
    (MissingValueHandler.apply c8Df [("x", "numeric")]
      c8Pp.config.missing_strategies).nRows = 0 ∧
    ((c8Pp.clean c8Df [("x", "numeric")]).2.applied_steps =
      ["missing_values", "numeric_cleaning", "categorical_cleaning",
        "feature_engineering", "validation"] ∧
    (c8Pp.clean c8Df [("x", "numeric")]).2.initial_shape = c8Df.shape ∧
    (c8Pp.clean c8Df [("x", "numeric")]).2.final_shape =
      (c8Pp.clean c8Df [("x", "numeric")]).1.shape ∧
    ((c8Pp.clean c8Df [("x", "numeric")]).2.validation_report).isSome = true ∧
    (c8Pp.clean c8Df [("x", "numeric")]).1.WF ∧
    (c8Pp.clean c8Df [("x", "numeric")]).1.nRows = 0) :=
  ⟨by decide,
    (fun h =>
      ⟨h.1, h.2.1, h.2.2.1, h.2.2.2.1, h.2.2.2.2.1, h.2.2.2.2.2⟩)
      (C8_clean_empty_after_drop c8Pp c8Df [("x", "numeric")]
        (by unfold DataFrame.WF; decide) (by decide) (by decide))⟩

end InsightBridge
